import Mathlib

/-!
Verification development for the `routage_problem` repository.

The repository formulates a multi-commodity flow routing problem as a linear
program (function `solve_linear_program`), generates random instances, and
persists/reads instances as CSV (`save_to_csv` / `read_instance`).

The embedding below mirrors the source code:
* node identifiers are integers (`Int`), capacities/costs/volumes are `ℚ`;
* the Gurobi model is represented by the ordered sequence of model-building
  operations (`Event`) the code performs — `model.addVar`, `model.addConstr`,
  `model.setObjective` and the Python exceptions that can be raised while
  building (`ValueError` for an unrecognized objective, `ZeroDivisionError`
  when a capacity, or the number of edges, is zero);
* the external solver is an oracle supplying a terminal status, per-variable
  values and an objective value; the post-`optimize` interpretation of the
  outcome is translated literally (return `None` on INFEASIBLE, return the
  pair `(solution, ObjVal)` on OPTIMAL, raise otherwise);
* the CSV layer models a written file as a list of rows of cells, where a
  cell carries either a literal string or a numeric value (the textual
  rendering Python's `csv` module would produce for that value).
-/

namespace Routage

/-- Node identifiers: the instances use integer node labels. -/
abbrev Node := Int

/-- A directed arc with its `capacity` and `cost` attributes
(`G[u][v]['capacity']`, `G[u][v]['cost']` in the source). -/
structure Arc where
  tail : Node
  head : Node
  capacity : ℚ
  cost : ℚ
deriving DecidableEq

/-- A directed graph: node list and arc list (networkx `DiGraph`).
`G.nodes` and `G.edges` iterate in a fixed (insertion) order. -/
structure Graph where
  nodes : List Node
  arcs : List Arc
deriving DecidableEq

/-- The traffic demand mapping `traffic_demand`: a Python dict keyed by
ordered node pairs `(i, j)` with numeric volumes, iterated in insertion
order. -/
abbrev Demands := List ((Node × Node) × ℚ)

/-- Key of an `x` decision variable in the source: `(i, j, u, v)`. -/
abbrev FlowKey := Node × Node × Node × Node

/-- Decision variables of the model: one `x[i, j, u, v]` per (demand, arc)
pair, plus the auxiliary `max_utilisation` variable of the
`max_utlilization` objective. -/
inductive Var where
  | flow (i j u v : Node)
  | util
deriving DecidableEq

/-- A linear (affine) expression as Gurobi builds it: an ordered list of
(coefficient, variable) terms plus a constant. -/
structure AffExpr where
  terms : List (ℚ × Var)
  const : ℚ
deriving DecidableEq

/-- The constant expression `q`. -/
def AffExpr.ofConst (q : ℚ) : AffExpr := ⟨[], q⟩

/-- Difference of two expressions (`e₁ - e₂`), keeping the term lists. -/
def AffExpr.sub (e₁ e₂ : AffExpr) : AffExpr :=
  ⟨e₁.terms ++ e₂.terms.map (fun t => (-t.1, t.2)), e₁.const - e₂.const⟩

/-- Aggregate coefficient of variable `v` in a term list. -/
def coeffT (l : List (ℚ × Var)) (v : Var) : ℚ :=
  ((l.filter (fun t => decide (t.2 = v))).map (fun t => t.1)).sum

/-- Aggregate coefficient of variable `v` in an expression. -/
def coeff (e : AffExpr) (v : Var) : ℚ := coeffT e.terms v

/-- Constraint relations. -/
inductive Rel where
  | eq
  | le
  | ge
deriving DecidableEq

/-- The `name=...` tag the source attaches to each constraint
(`flow_src_{i}_{j}_{node}`, `flow_dst_...`, `flow_mid_...`,
`capacity_{u}_{v}`, `utilisation_{u}_{v}`). -/
inductive ConstrTag where
  | flowSrc (i j n : Node)
  | flowDst (i j n : Node)
  | flowMid (i j n : Node)
  | capacity (u v : Node)
  | utilization (u v : Node)
deriving DecidableEq

/-- A linear constraint exactly as written in the source:
left-hand side, relation, right-hand side, and its name tag. -/
structure Constr where
  lhs : AffExpr
  rel : Rel
  rhs : AffExpr
  tag : ConstrTag
deriving DecidableEq

/-- `sum(x[(i, j, u, v)] for u, v in G.in_edges(node))`:
the incoming flow of demand `(i, j)` at `node`. -/
def inExpr (G : Graph) (i j node : Node) : AffExpr :=
  ⟨(G.arcs.filter (fun a => decide (a.head = node))).map
      (fun a => ((1 : ℚ), Var.flow i j a.tail a.head)), 0⟩

/-- `sum(x[(i, j, u, v)] for u, v in G.out_edges(node))`:
the outgoing flow of demand `(i, j)` at `node`. -/
def outExpr (G : Graph) (i j node : Node) : AffExpr :=
  ⟨(G.arcs.filter (fun a => decide (a.tail = node))).map
      (fun a => ((1 : ℚ), Var.flow i j a.tail a.head)), 0⟩

/-- The flow-conservation constraint the source adds for demand `(i, j)`
at `node`: `outflow - inflow == 1` if `node == i`,
`inflow - outflow == 1` if `node == j`, `inflow - outflow == 0` otherwise. -/
def consConstr (G : Graph) (i j node : Node) : Constr :=
  if node = i then
    ⟨(outExpr G i j node).sub (inExpr G i j node), Rel.eq, AffExpr.ofConst 1,
      ConstrTag.flowSrc i j node⟩
  else if node = j then
    ⟨(inExpr G i j node).sub (outExpr G i j node), Rel.eq, AffExpr.ofConst 1,
      ConstrTag.flowDst i j node⟩
  else
    ⟨(inExpr G i j node).sub (outExpr G i j node), Rel.eq, AffExpr.ofConst 0,
      ConstrTag.flowMid i j node⟩

/-- The capacity constraint the source adds for arc `a`:
`sum(demand * x[(i, j, u, v)] for (i, j), demand in traffic_demand.items())
 <= G[u][v]['capacity']`. -/
def capConstr (dem : Demands) (a : Arc) : Constr :=
  ⟨⟨dem.map (fun d => (d.2, Var.flow d.1.1 d.1.2 a.tail a.head)), 0⟩,
    Rel.le, AffExpr.ofConst a.capacity, ConstrTag.capacity a.tail a.head⟩

/-- The per-arc utilization constraint of the `max_utlilization` objective:
`utilisation >= sum(demand * x[(i, j, u, v)] for ...) / G[u][v]['capacity']`
(the division by the scalar capacity divides every coefficient). -/
def utilConstr (dem : Demands) (a : Arc) : Constr :=
  ⟨⟨[((1 : ℚ), Var.util)], 0⟩, Rel.ge,
    ⟨dem.map (fun d => (d.2 / a.capacity, Var.flow d.1.1 d.1.2 a.tail a.head)), 0⟩,
    ConstrTag.utilization a.tail a.head⟩

/-- The `cost` objective expression:
`sum(x[(i, j, u, v)] * demand * G[u][v]['cost'] for (i, j), demand in
 traffic_demand.items() for u, v in G.edges)`. -/
def costExpr (G : Graph) (dem : Demands) : AffExpr :=
  ⟨dem.flatMap (fun d =>
      G.arcs.map (fun a => (d.2 * a.cost, Var.flow d.1.1 d.1.2 a.tail a.head))), 0⟩

/-- The `avg_utilisation` objective expression:
`sum(sum(demand * x[...]) / capacity for u, v in G.edges) / G.number_of_edges()`
(both divisions are by scalars, so they divide every coefficient). -/
def avgExpr (G : Graph) (dem : Demands) : AffExpr :=
  ⟨G.arcs.flatMap (fun a =>
      dem.map (fun d =>
        (d.2 / a.capacity / (G.arcs.length : ℚ), Var.flow d.1.1 d.1.2 a.tail a.head))), 0⟩

/-- Optimization direction (`GRB.MINIMIZE` / `GRB.MAXIMIZE`). -/
inductive Dir where
  | minimize
  | maximize
deriving DecidableEq

/-- One model-building operation performed by `solve_linear_program`, in
program order: adding a variable (`model.addVar` with its bounds, `none`
upper bound standing for `GRB.INFINITY`), adding a constraint
(`model.addConstr`), setting the objective (`model.setObjective`), or
raising a Python exception. -/
inductive Event where
  | addVar (v : Var) (lb : ℚ) (ub : Option ℚ)
  | addConstr (c : Constr)
  | setObjective (e : AffExpr) (d : Dir)
  | raiseError (msg : String)
deriving DecidableEq

/-- Message of Python's `ZeroDivisionError`. -/
def zeroDivMsg : String := "ZeroDivisionError: division by zero"

/-- Message of the `ValueError` raised on an unrecognized objective. -/
def unrecognizedMsg : String := "Fonction objectif non reconnue"

/-- Phase 1 of `solve_linear_program`: one `model.addVar(lb=0, ub=1)` per
(demand, arc) pair, demands outer, arcs inner. -/
def flowVarEvents (G : Graph) (dem : Demands) : List Event :=
  dem.flatMap (fun d =>
    G.arcs.map (fun a => Event.addVar (Var.flow d.1.1 d.1.2 a.tail a.head) 0 (some 1)))

/-- Phase 2: one flow-conservation constraint per (demand, node). -/
def consEvents (G : Graph) (dem : Demands) : List Event :=
  dem.flatMap (fun d =>
    G.nodes.map (fun n => Event.addConstr (consConstr G d.1.1 d.1.2 n)))

/-- Phase 3: one capacity constraint per arc. -/
def capEvents (G : Graph) (dem : Demands) : List Event :=
  G.arcs.map (fun a => Event.addConstr (capConstr dem a))

/-- The per-arc constraint loop of the `max_utlilization` branch followed by
`model.setObjective(utilisation, GRB.MINIMIZE)`; a zero-capacity arc makes
Python raise `ZeroDivisionError` at that iteration. -/
def utilLoopEvents (dem : Demands) : List Arc → List Event
  | [] => [Event.setObjective ⟨[((1 : ℚ), Var.util)], 0⟩ Dir.minimize]
  | a :: rest =>
    if a.capacity = 0 then [Event.raiseError zeroDivMsg]
    else Event.addConstr (utilConstr dem a) :: utilLoopEvents dem rest

/-- Phase 4, the objective dispatch of `solve_linear_program`:
`"cost"` sets the cost objective; `"max_utlilization"` (spelled as in the
source) adds the auxiliary variable, the per-arc utilization constraints and
the objective; `"avg_utilisation"` sets the average-utilization objective
(raising `ZeroDivisionError` on a zero capacity or an edgeless graph);
anything else raises `ValueError("Fonction objectif non reconnue")`. -/
def objEvents (G : Graph) (dem : Demands) (objective : String) : List Event :=
  if objective = "cost" then
    [Event.setObjective (costExpr G dem) Dir.minimize]
  else if objective = "max_utlilization" then
    Event.addVar Var.util 0 none :: utilLoopEvents dem G.arcs
  else if objective = "avg_utilisation" then
    if G.arcs.any (fun a => decide (a.capacity = 0)) then [Event.raiseError zeroDivMsg]
    else if G.arcs.isEmpty then [Event.raiseError zeroDivMsg]
    else [Event.setObjective (avgExpr G dem) Dir.minimize]
  else
    [Event.raiseError unrecognizedMsg]

/-- The complete sequence of model-building operations performed by
`solve_linear_program` before `model.optimize()`, in program order. -/
def buildEvents (G : Graph) (dem : Demands) (objective : String) : List Event :=
  flowVarEvents G dem ++ consEvents G dem ++ capEvents G dem ++ objEvents G dem objective

/-- The Gurobi model state: declared variables with bounds, constraints,
and the objective, in insertion order. -/
structure OptModel where
  vars : List (Var × ℚ × Option ℚ)
  constrs : List Constr
  objective : Option (AffExpr × Dir)
deriving DecidableEq

/-- `Model("Routing")`: the freshly created empty model. -/
def emptyModel : OptModel := ⟨[], [], none⟩

/-- The full program state during model building: the input graph, the
input demand mapping and the Gurobi model under construction.  Only the
model is ever written to. -/
structure ProgState where
  G : Graph
  dem : Demands
  model : OptModel
deriving DecidableEq

/-- Effect of one non-raising event on the model. -/
def applyEvent (m : OptModel) : Event → OptModel
  | Event.addVar v lb ub => { m with vars := m.vars ++ [(v, lb, ub)] }
  | Event.addConstr c => { m with constrs := m.constrs ++ [c] }
  | Event.setObjective e d => { m with objective := some (e, d) }
  | Event.raiseError _ => m

/-- Replay a sequence of model-building operations over the program state;
a raised exception aborts the build and is reported with the state reached
so far. -/
def replayProg : List Event → ProgState → ProgState × Option String
  | [], st => (st, none)
  | Event.raiseError msg :: _, st => (st, some msg)
  | e :: rest, st => replayProg rest { st with model := applyEvent st.model e }

/-- Model construction threaded through the program state. -/
def buildModelSt (G : Graph) (dem : Demands) (objective : String) :
    ProgState × Option String :=
  replayProg (buildEvents G dem objective) ⟨G, dem, emptyModel⟩

/-- The model-building part of `solve_linear_program`: the constructed model,
or the message of the exception that aborted the build. -/
def buildModel (G : Graph) (dem : Demands) (objective : String) :
    Except String OptModel :=
  match buildModelSt G dem objective with
  | (st, none) => Except.ok st.model
  | (_, some msg) => Except.error msg

/-- Terminal status reported by `model.optimize()`. -/
inductive Status where
  | optimal
  | infeasible
  | unbounded
  | other
deriving DecidableEq

/-- The external solver, abstracted as an oracle: terminal status,
value of each flow variable (`var.x`), and `model.ObjVal`. -/
structure Oracle where
  status : Status
  value : FlowKey → ℚ
  objVal : ℚ

/-- Insertion order of the keys of the `x` dictionary. -/
def flowKeys (G : Graph) (dem : Demands) : List FlowKey :=
  dem.flatMap (fun d => G.arcs.map (fun a => (d.1.1, d.1.2, a.tail, a.head)))

/-- What `solve_linear_program` produces after `model.optimize()`:
`return None` (after the IIS diagnostics are printed and written to
`infeasible.ilp`), `return solution, model.ObjVal`, or a raised exception. -/
inductive PyResult where
  | retNone
  | retSolution (sol : List (FlowKey × ℚ)) (objVal : ℚ)
  | raised (msg : String)
deriving DecidableEq

/-- `solution = {key: var.x for key, var in x.items() if var.x > 0}`:
the sparse routing solution extracted on OPTIMAL status. -/
def extractSolution (keys : List FlowKey) (value : FlowKey → ℚ) :
    List (FlowKey × ℚ) :=
  (keys.filter (fun k => decide (0 < value k))).map (fun k => (k, value k))

/-- The status dispatch after `model.optimize()`: INFEASIBLE returns `None`,
OPTIMAL returns the extracted solution with the objective value, any other
status raises `Exception("Pas de solution optimale trouvée")`. -/
def interpretResult (keys : List FlowKey) (value : FlowKey → ℚ) (objVal : ℚ) :
    Status → PyResult
  | Status.infeasible => PyResult.retNone
  | Status.optimal => PyResult.retSolution (extractSolution keys value) objVal
  | Status.unbounded => PyResult.raised ("Pas de solution optimale trouvée")
  | Status.other => PyResult.raised ("Pas de solution optimale trouvée")

/-- `solve_linear_program(G, traffic_demand, objective)`: build the model
(propagating any exception raised while building), run the solver, and
interpret the terminal status. -/
def solve_linear_program (G : Graph) (dem : Demands) (objective : String)
    (oracle : Oracle) : PyResult :=
  match buildModel G dem objective with
  | Except.error msg => PyResult.raised msg
  | Except.ok _ =>
      interpretResult (flowKeys G dem) oracle.value oracle.objVal oracle.status

/-- The three objective selector strings `solve_linear_program` recognizes
(spelled exactly as in the source). -/
def recognizedObjective (objective : String) : Prop :=
  objective = "cost" ∨ objective = "max_utlilization" ∨ objective = "avg_utilisation"

instance (objective : String) : Decidable (recognizedObjective objective) := by
  unfold recognizedObjective
  infer_instance

/-!  The CSV persistence layer (`save_to_csv` / `read_instance`).

A written file is a list of rows; a cell either carries a literal string
(the section headers) or a numeric value, standing for the textual rendering
Python's `csv` module produces for that value.  `int(...)` applied to the
text of a non-integral numeric value, or to a non-numeric string, raises
`ValueError`; `float(...)` applied to a numeric cell succeeds. -/

/-- One CSV cell as written by `csv.writer`. -/
inductive Cell where
  | s (v : String)
  | i (n : Int)
  | q (v : ℚ)
deriving DecidableEq

/-- Python `row[k] == "..."`: the cell's text equals the given string.
The textual form of a number is never one of the section-header words. -/
def cellIsStr (c : Cell) (s : String) : Bool :=
  match c with
  | Cell.s v => v == s
  | _ => false

/-- Value of a decimal digit character. -/
def digitVal (c : Char) : Option Nat :=
  if c = '0' then some 0 else if c = '1' then some 1 else if c = '2' then some 2
  else if c = '3' then some 3 else if c = '4' then some 4 else if c = '5' then some 5
  else if c = '6' then some 6 else if c = '7' then some 7 else if c = '8' then some 8
  else if c = '9' then some 9 else none

/-- Parse a non-empty all-digit character list as a natural number. -/
def digitsToNat? : List Char → Option Nat
  | [] => none
  | cs => cs.foldl
      (fun acc c =>
        match acc, digitVal c with
        | some n, some d => some (n * 10 + d)
        | _, _ => none)
      (some 0)

/-- Python `int(...)` on a string: an optional minus sign followed by
decimal digits; anything else raises `ValueError`. -/
def strToInt? (s : String) : Option Int :=
  match s.data with
  | '-' :: rest => (digitsToNat? rest).map (fun n => -(n : Int))
  | cs => (digitsToNat? cs).map (fun n => (n : Int))

/-- Python `int(row[k])`: parses an integer cell; the textual form of a
`float` (which always carries a decimal point or exponent) and any
non-numeric string raise `ValueError`. -/
def cellToInt : Cell → Except String Int
  | Cell.i n => Except.ok n
  | Cell.q _ => Except.error ("ValueError: invalid literal for int()")
  | Cell.s v =>
    match strToInt? v with
    | some n => Except.ok n
    | none => Except.error ("ValueError: invalid literal for int(): " ++ v)

/-- Python `float(row[k])`: any numeric cell parses; the section-header
strings do not. -/
def cellToFloat : Cell → Except String ℚ
  | Cell.i n => Except.ok (n : ℚ)
  | Cell.q v => Except.ok v
  | Cell.s v => Except.error ("ValueError: could not convert string to float: " ++ v)

/-- Python `row[k]` with bounds checking (`IndexError` past the end). -/
def getCell (row : List Cell) (k : Nat) : Except String Cell :=
  match row[k]? with
  | some c => Except.ok c
  | none => Except.error ("IndexError: list index out of range")

/-- `save_to_csv(G, S, traffic_demand, filename)`: the rows written to the
file — the arc header, one row per arc, a blank row, the demand header, one
row per demand, a blank row, the `Subset S` header, and the subset row. -/
def save_to_csv (G : Graph) (S : List Int) (dem : List ((Int × Int) × Int)) :
    List (List Cell) :=
  [[Cell.s ("Source"), Cell.s ("Target"), Cell.s ("Capacity"), Cell.s ("Cost")]]
    ++ G.arcs.map (fun a => [Cell.i a.tail, Cell.i a.head, Cell.q a.capacity, Cell.q a.cost])
    ++ [[]]
    ++ [[Cell.s ("entry"), Cell.s ("Target"), Cell.s ("Traffic Demand")]]
    ++ dem.map (fun d => [Cell.i d.1.1, Cell.i d.1.2, Cell.i d.2])
    ++ [[]]
    ++ [[Cell.s ("Subset S")]]
    ++ [S.map Cell.i]

/-- The in-memory result of `read_instance`: the accumulated `G.add_edge`
calls, the parsed traffic demands, and the subset `S`. -/
structure ReadAcc where
  edges : List (Int × Int × ℚ × ℚ)
  dem : List ((Int × Int) × Int)
  S : List Int
deriving DecidableEq

/-- The row loop of `read_instance`, translated clause by clause:
skip empty rows; skip a row starting with `"Source"`; a row starting with
`"entry"` switches the section to `"traffic"` **without** skipping the row;
a row starting with `"Subset S"` switches to `"subset"` and skips the row;
otherwise the row is parsed according to the current section, and the
subset row ends the loop (`break`). -/
def readLoop : List (List Cell) → String → ReadAcc → Except String ReadAcc
  | [], _, acc => Except.ok acc
  | row :: rest, sect, acc =>
    match row with
    | [] => readLoop rest sect acc
    | c0 :: _ =>
      if cellIsStr c0 ("Source") then readLoop rest sect acc
      else
        let sect1 := if cellIsStr c0 ("entry") then "traffic" else sect
        if cellIsStr c0 ("Subset S") then readLoop rest "subset" acc
        else if sect1 = "arcs" then do
          let u ← cellToInt (← getCell row 0)
          let v ← cellToInt (← getCell row 1)
          let cap ← cellToFloat (← getCell row 2)
          let cst ← cellToFloat (← getCell row 3)
          readLoop rest sect1 { acc with edges := acc.edges ++ [(u, v, cap, cst)] }
        else if sect1 = "traffic" then do
          let i ← cellToInt (← getCell row 0)
          let j ← cellToInt (← getCell row 1)
          let d ← cellToInt (← getCell row 2)
          readLoop rest sect1 { acc with dem := acc.dem ++ [((i, j), d)] }
        else if sect1 = "subset" then do
          let S ← row.mapM cellToInt
          Except.ok { acc with S := S }
        else readLoop rest sect1 acc

/-- `read_instance(filename)`: parse the rows of the file starting in the
`"arcs"` section with an empty graph, demand dict and subset. -/
def read_instance (rows : List (List Cell)) : Except String ReadAcc :=
  readLoop rows "arcs" ⟨[], [], []⟩

/-! ### Generic list lemmas -/

theorem countP_flatMap {α β : Type} (l : List α) (f : α → List β) (p : β → Bool) :
    (l.flatMap f).countP p = (l.map (fun x => (f x).countP p)).sum := by
  induction l with
  | nil => simp
  | cons a l ih => simp [List.flatMap_cons, List.countP_append, ih]

theorem sum_map_ite_of_forall_ne {α : Type} {M : Type} [AddCommMonoid M]
    (l : List α) (p : α → Prop) [DecidablePred p] (g : α → M)
    (h : ∀ x ∈ l, ¬ p x) :
    (l.map (fun y => if p y then g y else 0)).sum = 0 := by
  induction l with
  | nil => simp
  | cons a l ih =>
    have ha : ¬ p a := h a (List.mem_cons_self a l)
    simp [ha, ih (fun x hx => h x (List.mem_cons_of_mem a hx))]

theorem sum_map_ite_key {α κ : Type} {M : Type} [AddCommMonoid M] [DecidableEq κ]
    (l : List α) (f : α → κ) (k : κ) (g : α → M)
    (hnd : (l.map f).Nodup) (x : α) (hx : x ∈ l) (hfx : f x = k) :
    (l.map (fun y => if f y = k then g y else 0)).sum = g x := by
  induction l with
  | nil => cases hx
  | cons a l ih =>
    rw [List.map_cons, List.nodup_cons] at hnd
    rcases List.mem_cons.mp hx with rfl | hx'
    · have hz : (l.map (fun y => if f y = k then g y else 0)).sum = 0 := by
        refine sum_map_ite_of_forall_ne l (fun y => f y = k) g ?_
        intro y hy hfy
        exact hnd.1 (by rw [hfx, ← hfy]; exact List.mem_map_of_mem f hy)
      simp [hfx, hz]
    · have hne : ¬ f a = k := by
        intro hak
        exact hnd.1 (by rw [← hfx] at hak; rw [hak]; exact List.mem_map_of_mem f hx')
      simp [hne, ih hnd.2 hx']

theorem countP_key_unique {α κ : Type} [DecidableEq κ]
    (l : List α) (f : α → κ) (k : κ)
    (hnd : (l.map f).Nodup) (x : α) (hx : x ∈ l) (hfx : f x = k) :
    l.countP (fun y => decide (f y = k)) = 1 := by
  induction l with
  | nil => cases hx
  | cons a l ih =>
    rw [List.map_cons, List.nodup_cons] at hnd
    rcases List.mem_cons.mp hx with rfl | hx'
    · have hz : l.countP (fun y => decide (f y = k)) = 0 := by
        rw [List.countP_eq_zero]
        intro y hy hfy
        simp only [decide_eq_true_eq] at hfy
        exact hnd.1 (by rw [hfx, ← hfy]; exact List.mem_map_of_mem f hy)
      simp [List.countP_cons, hz, hfx]
    · have hne : ¬ f a = k := by
        intro hak
        exact hnd.1 (by rw [← hfx] at hak; rw [hak]; exact List.mem_map_of_mem f hx')
      simp [List.countP_cons, hne, ih hnd.2 hx']

theorem sum_map_add {α : Type} {M : Type} [AddCommMonoid M]
    (l : List α) (f g : α → M) :
    (l.map (fun y => f y + g y)).sum = (l.map f).sum + (l.map g).sum := by
  induction l with
  | nil => simp
  | cons a l ih =>
    simp only [List.map_cons, List.sum_cons, ih]
    abel

theorem sum_map_comm {α β : Type} {M : Type} [AddCommMonoid M]
    (l₁ : List α) (l₂ : List β) (f : α → β → M) :
    (l₁.map (fun x => (l₂.map (fun y => f x y)).sum)).sum
      = (l₂.map (fun y => (l₁.map (fun x => f x y)).sum)).sum := by
  induction l₁ with
  | nil => simp
  | cons a l ih =>
    simp only [List.map_cons, List.sum_cons, ih, ← sum_map_add]

theorem sum_map_indicator_count {α : Type} [DecidableEq α]
    (l : List α) (x : α) :
    (l.map (fun y => if x = y then (1 : ℚ) else 0)).sum = (l.count x : ℚ) := by
  induction l with
  | nil => simp
  | cons a l ih =>
    by_cases h : x = a
    · subst h
      simp [List.count_cons, ih, add_comm]
    · simp [List.count_cons, h, Ne.symm h, ih]

/-! ### Coefficient lemmas -/

theorem coeffT_nil (v : Var) : coeffT [] v = 0 := rfl

theorem coeffT_cons (t : ℚ × Var) (l : List (ℚ × Var)) (v : Var) :
    coeffT (t :: l) v = (if t.2 = v then t.1 else 0) + coeffT l v := by
  by_cases h : t.2 = v <;> simp [coeffT, List.filter_cons, h]

theorem coeffT_append (l₁ l₂ : List (ℚ × Var)) (v : Var) :
    coeffT (l₁ ++ l₂) v = coeffT l₁ v + coeffT l₂ v := by
  simp [coeffT, List.filter_append]

theorem coeffT_negMap (l : List (ℚ × Var)) (v : Var) :
    coeffT (l.map (fun t => (-t.1, t.2))) v = -coeffT l v := by
  induction l with
  | nil => simp [coeffT_nil]
  | cons t l ih =>
    simp only [List.map_cons, coeffT_cons, ih]
    by_cases h : t.2 = v
    · simp only [h, if_pos rfl, if_true, eq_self_iff_true]
      ring
    · simp only [if_neg h]
      ring

theorem coeff_sub (e₁ e₂ : AffExpr) (v : Var) :
    coeff (e₁.sub e₂) v = coeff e₁ v - coeff e₂ v := by
  simp only [coeff, AffExpr.sub, coeffT_append, coeffT_negMap]
  ring

theorem coeff_ofConst (q : ℚ) (v : Var) : coeff (AffExpr.ofConst q) v = 0 := by
  simp [coeff, AffExpr.ofConst, coeffT_nil]

theorem coeffT_map_pair {α : Type} (l : List α) (g : α → ℚ) (f : α → Var) (v : Var) :
    coeffT (l.map (fun x => (g x, f x))) v
      = (l.map (fun x => if f x = v then g x else 0)).sum := by
  induction l with
  | nil => simp [coeffT_nil]
  | cons a l ih =>
    simp only [List.map_cons, coeffT_cons, List.sum_cons, ih]

theorem coeffT_filter_map_pair {α : Type} (l : List α) (q : α → Bool)
    (g : α → ℚ) (f : α → Var) (v : Var) :
    coeffT ((l.filter q).map (fun x => (g x, f x))) v
      = (l.map (fun x => if q x = true ∧ f x = v then g x else 0)).sum := by
  induction l with
  | nil => simp [coeffT_nil]
  | cons a l ih =>
    by_cases hq : q a = true
    · simp only [List.filter_cons, hq, if_true, List.map_cons, coeffT_cons,
        List.sum_cons, ih, true_and]
    · simp only [List.filter_cons, hq, if_false, List.map_cons, List.sum_cons, ih,
        Bool.false_eq_true, false_and, if_neg, not_false_iff, zero_add]

theorem coeffT_eq_zero_of_forall_ne (l : List (ℚ × Var)) (v : Var)
    (h : ∀ t ∈ l, t.2 ≠ v) : coeffT l v = 0 := by
  induction l with
  | nil => simp [coeffT_nil]
  | cons t l ih =>
    have ht : t.2 ≠ v := h t (List.mem_cons_self t l)
    rw [coeffT_cons, if_neg ht, zero_add]
    exact ih (fun s hs => h s (List.mem_cons_of_mem t hs))

/-! ### Event classification -/

/-- The key of a flow-variable-creation event (ignoring bounds). -/
def flowVarKey : Event → Option FlowKey
  | Event.addVar (Var.flow i j u v) _ _ => some (i, j, u, v)
  | _ => none

/-- Does the event create the flow variable of demand `(i, j)` on arc
`(u, v)`? -/
def isFlowVarAdd (i j u v : Node) (e : Event) : Bool :=
  decide (flowVarKey e = some (i, j, u, v))

/-- Does the event create the auxiliary utilization variable? -/
def isUtilVarAdd : Event → Bool
  | Event.addVar Var.util _ _ => true
  | _ => false

/-- The `(i, j, node)` key of a flow-conservation constraint tag. -/
def consTagKey : ConstrTag → Option (Node × Node × Node)
  | ConstrTag.flowSrc i j n => some (i, j, n)
  | ConstrTag.flowDst i j n => some (i, j, n)
  | ConstrTag.flowMid i j n => some (i, j, n)
  | _ => none

/-- The key of a conservation-constraint-addition event. -/
def consEventKey : Event → Option (Node × Node × Node)
  | Event.addConstr c => consTagKey c.tag
  | _ => none

/-- Does the event add the flow-conservation constraint of demand `(i, j)`
at node `n`? -/
def isConsFor (i j n : Node) (e : Event) : Bool :=
  decide (consEventKey e = some (i, j, n))

/-- The arc key of a capacity-constraint-addition event. -/
def capEventKey : Event → Option (Node × Node)
  | Event.addConstr c =>
    match c.tag with
    | ConstrTag.capacity u v => some (u, v)
    | _ => none
  | _ => none

/-- Does the event add the capacity constraint of arc `(u, v)`? -/
def isCapFor (u v : Node) (e : Event) : Bool :=
  decide (capEventKey e = some (u, v))

/-- The arc key of a utilization-constraint-addition event. -/
def utilEventKey : Event → Option (Node × Node)
  | Event.addConstr c =>
    match c.tag with
    | ConstrTag.utilization u v => some (u, v)
    | _ => none
  | _ => none

/-- Does the event add the utilization constraint of arc `(u, v)`? -/
def isUtilConstrFor (u v : Node) (e : Event) : Bool :=
  decide (utilEventKey e = some (u, v))

/-- Is the event a raised Python exception? -/
def isRaise : Event → Bool
  | Event.raiseError _ => true
  | _ => false

/-- Whatever the branch, the conservation constraint for `(i, j)` at `n`
carries `(i, j, n)` in its name tag. -/
theorem consConstr_tagKey (G : Graph) (i j n : Node) :
    consTagKey (consConstr G i j n).tag = some (i, j, n) := by
  unfold consConstr
  split_ifs <;> rfl

/-! ### Shapes of the event segments -/

theorem mem_flowVarEvents {G : Graph} {dem : Demands} {e : Event}
    (he : e ∈ flowVarEvents G dem) :
    ∃ d ∈ dem, ∃ a ∈ G.arcs,
      e = Event.addVar (Var.flow d.1.1 d.1.2 a.tail a.head) 0 (some 1) := by
  simp only [flowVarEvents, List.mem_flatMap, List.mem_map] at he
  obtain ⟨d, hd, a, ha, rfl⟩ := he
  exact ⟨d, hd, a, ha, rfl⟩

theorem mem_consEvents {G : Graph} {dem : Demands} {e : Event}
    (he : e ∈ consEvents G dem) :
    ∃ d ∈ dem, ∃ n ∈ G.nodes, e = Event.addConstr (consConstr G d.1.1 d.1.2 n) := by
  simp only [consEvents, List.mem_flatMap, List.mem_map] at he
  obtain ⟨d, hd, n, hn, rfl⟩ := he
  exact ⟨d, hd, n, hn, rfl⟩

theorem mem_capEvents {G : Graph} {dem : Demands} {e : Event}
    (he : e ∈ capEvents G dem) :
    ∃ a ∈ G.arcs, e = Event.addConstr (capConstr dem a) := by
  simp only [capEvents, List.mem_map] at he
  obtain ⟨a, ha, rfl⟩ := he
  exact ⟨a, ha, rfl⟩

/-- When no arc capacity is zero, the `max_utlilization` loop adds one
utilization constraint per arc and then sets the objective. -/
theorem utilLoopEvents_eq_of_caps (dem : Demands) (arcs : List Arc)
    (h : ∀ a ∈ arcs, a.capacity ≠ 0) :
    utilLoopEvents dem arcs
      = arcs.map (fun a => Event.addConstr (utilConstr dem a))
          ++ [Event.setObjective ⟨[((1 : ℚ), Var.util)], 0⟩ Dir.minimize] := by
  induction arcs with
  | nil => rfl
  | cons a rest ih =>
    have ha : a.capacity ≠ 0 := h a (List.mem_cons_self a rest)
    simp only [utilLoopEvents, if_neg ha, List.map_cons, List.cons_append]
    rw [ih (fun b hb => h b (List.mem_cons_of_mem a hb))]

/-- For an unrecognized objective string, the objective dispatch raises
`ValueError("Fonction objectif non reconnue")` and nothing else. -/
theorem objEvents_unrecognized (G : Graph) (dem : Demands) {objective : String}
    (h : ¬ recognizedObjective objective) :
    objEvents G dem objective = [Event.raiseError unrecognizedMsg] := by
  unfold recognizedObjective at h
  push_neg at h
  simp only [objEvents, if_neg h.1, if_neg h.2.1, if_neg h.2.2]

theorem mem_utilLoopEvents {dem : Demands} {arcs : List Arc} {e : Event}
    (he : e ∈ utilLoopEvents dem arcs) :
    (∃ a ∈ arcs, e = Event.addConstr (utilConstr dem a))
      ∨ e = Event.setObjective ⟨[((1 : ℚ), Var.util)], 0⟩ Dir.minimize
      ∨ e = Event.raiseError zeroDivMsg := by
  induction arcs with
  | nil =>
    simp only [utilLoopEvents, List.mem_singleton] at he
    exact Or.inr (Or.inl he)
  | cons a rest ih =>
    by_cases hc : a.capacity = 0
    · simp only [utilLoopEvents, if_pos hc, List.mem_singleton] at he
      exact Or.inr (Or.inr he)
    · simp only [utilLoopEvents, if_neg hc, List.mem_cons] at he
      rcases he with rfl | he'
      · exact Or.inl ⟨a, List.mem_cons_self a rest, rfl⟩
      · rcases ih he' with ⟨b, hb, rfl⟩ | h | h
        · exact Or.inl ⟨b, List.mem_cons_of_mem a hb, rfl⟩
        · exact Or.inr (Or.inl h)
        · exact Or.inr (Or.inr h)

/-- No event of the objective phase creates a flow variable, a conservation
constraint or a capacity constraint. -/
theorem objEvents_keys_none (G : Graph) (dem : Demands) (objective : String) :
    ∀ e ∈ objEvents G dem objective,
      flowVarKey e = none ∧ consEventKey e = none ∧ capEventKey e = none := by
  intro e he
  by_cases h1 : objective = "cost"
  · simp only [objEvents, if_pos h1, List.mem_singleton] at he
    subst he
    exact ⟨rfl, rfl, rfl⟩
  by_cases h2 : objective = "max_utlilization"
  · simp only [objEvents, if_neg h1, if_pos h2, List.mem_cons] at he
    rcases he with rfl | he'
    · exact ⟨rfl, rfl, rfl⟩
    · rcases mem_utilLoopEvents he' with ⟨a, _, rfl⟩ | rfl | rfl
      · exact ⟨rfl, rfl, rfl⟩
      · exact ⟨rfl, rfl, rfl⟩
      · exact ⟨rfl, rfl, rfl⟩
  by_cases h3 : objective = "avg_utilisation"
  · simp only [objEvents, if_neg h1, if_neg h2, if_pos h3] at he
    by_cases h4 : G.arcs.any (fun a => decide (a.capacity = 0))
    · simp only [if_pos h4, List.mem_singleton] at he
      subst he
      exact ⟨rfl, rfl, rfl⟩
    · by_cases h5 : G.arcs.isEmpty
      · simp only [if_neg h4, if_pos h5, List.mem_singleton] at he
        subst he
        exact ⟨rfl, rfl, rfl⟩
      · simp only [if_neg h4, if_neg h5, List.mem_singleton] at he
        subst he
        exact ⟨rfl, rfl, rfl⟩
  · simp only [objEvents, if_neg h1, if_neg h2, if_neg h3, List.mem_singleton] at he
    subst he
    exact ⟨rfl, rfl, rfl⟩

/-! ### Count lemmas -/

theorem countP_zero_of_key_none {κ : Type} [DecidableEq κ]
    (l : List Event) (key : Event → Option κ) (k : κ)
    (h : ∀ e ∈ l, key e = none) :
    l.countP (fun e => decide (key e = some k)) = 0 := by
  rw [List.countP_eq_zero]
  intro e he
  simp [h e he]

/-- Exactly one flow-variable-creation event per (demand, arc) pair in the
variable phase, given that demand keys and arc keys are unique. -/
theorem countP_flowVarEvents_eq_one
    {G : Graph} {dem : Demands} {i j : Node} {vol : ℚ} {a : Arc}
    (hdem : (dem.map (fun d => d.1)).Nodup)
    (harc : (G.arcs.map (fun b => (b.tail, b.head))).Nodup)
    (hd : ((i, j), vol) ∈ dem) (ha : a ∈ G.arcs) :
    (flowVarEvents G dem).countP (isFlowVarAdd i j a.tail a.head) = 1 := by
  rw [flowVarEvents, countP_flatMap]
  have hinner : ∀ d ∈ dem,
      ((G.arcs.map (fun b =>
          Event.addVar (Var.flow d.1.1 d.1.2 b.tail b.head) 0 (some 1))).countP
        (isFlowVarAdd i j a.tail a.head))
      = if d.1 = (i, j) then 1 else 0 := by
    intro d _
    rw [List.countP_map]
    have hpt : ∀ b ∈ G.arcs,
        ((isFlowVarAdd i j a.tail a.head) ∘
          (fun b => Event.addVar (Var.flow d.1.1 d.1.2 b.tail b.head) 0 (some 1))) b = true
        ↔ (decide ((d.1.1, d.1.2, b.tail, b.head) = ((i : Node), (j : Node), a.tail, a.head))) = true := by
      intro b _
      simp [isFlowVarAdd, flowVarKey]
    rw [List.countP_congr hpt]
    by_cases hkey : d.1 = (i, j)
    · rw [if_pos hkey]
      have hmapeq : G.arcs.map (fun b => (d.1.1, d.1.2, b.tail, b.head))
          = (G.arcs.map (fun b => (b.tail, b.head))).map
              (fun p => (d.1.1, d.1.2, p.1, p.2)) := by
        rw [List.map_map]
        rfl
      have hnodup2 : (G.arcs.map (fun b => ((d.1.1 : Node), (d.1.2 : Node), b.tail, b.head))).Nodup := by
        rw [hmapeq]
        refine List.Nodup.map ?_ harc
        intro p q hpq
        simpa [Prod.ext_iff] using hpq
      refine countP_key_unique G.arcs (fun b => (d.1.1, d.1.2, b.tail, b.head))
        ((i : Node), (j : Node), a.tail, a.head) hnodup2 a ha ?_
      rw [hkey]
    · rw [if_neg hkey]
      rw [List.countP_eq_zero]
      intro b _
      simp only [decide_eq_true_eq, Prod.mk.injEq, not_and]
      intro h1 h2 _ _
      exact hkey (by rw [Prod.ext_iff]; exact ⟨h1, h2⟩)
  rw [List.map_congr_left hinner]
  exact sum_map_ite_key dem (fun d => d.1) (i, j) (fun _ => 1) hdem ((i, j), vol) hd rfl

/-- Exactly one conservation-constraint event per (demand, node) pair in the
conservation phase, given unique demand keys and nodes. -/
theorem countP_consEvents_eq_one
    {G : Graph} {dem : Demands} {i j : Node} {vol : ℚ} {n : Node}
    (hdem : (dem.map (fun d => d.1)).Nodup)
    (hnodes : G.nodes.Nodup)
    (hd : ((i, j), vol) ∈ dem) (hn : n ∈ G.nodes) :
    (consEvents G dem).countP (isConsFor i j n) = 1 := by
  rw [consEvents, countP_flatMap]
  have hinner : ∀ d ∈ dem,
      ((G.nodes.map (fun m =>
          Event.addConstr (consConstr G d.1.1 d.1.2 m))).countP (isConsFor i j n))
      = if d.1 = (i, j) then 1 else 0 := by
    intro d _
    rw [List.countP_map]
    have hpt : ∀ m ∈ G.nodes,
        ((isConsFor i j n) ∘ (fun m => Event.addConstr (consConstr G d.1.1 d.1.2 m))) m = true
        ↔ (decide (((d.1.1 : Node), (d.1.2 : Node), m) = ((i : Node), (j : Node), n))) = true := by
      intro m _
      simp [isConsFor, consEventKey, consConstr_tagKey]
    rw [List.countP_congr hpt]
    by_cases hkey : d.1 = (i, j)
    · rw [if_pos hkey]
      have hnodup2 : (G.nodes.map (fun m => ((d.1.1 : Node), (d.1.2 : Node), m))).Nodup := by
        refine List.Nodup.map ?_ hnodes
        intro p q hpq
        simpa using hpq
      refine countP_key_unique G.nodes (fun m => (d.1.1, d.1.2, m))
        ((i : Node), (j : Node), n) hnodup2 n hn ?_
      rw [hkey]
    · rw [if_neg hkey]
      rw [List.countP_eq_zero]
      intro m _
      simp only [decide_eq_true_eq, Prod.mk.injEq, not_and]
      intro h1 h2 _
      exact hkey (by rw [Prod.ext_iff]; exact ⟨h1, h2⟩)
  rw [List.map_congr_left hinner]
  exact sum_map_ite_key dem (fun d => d.1) (i, j) (fun _ => 1) hdem ((i, j), vol) hd rfl

/-- Exactly one capacity-constraint event per arc in the capacity phase,
given unique arc keys. -/
theorem countP_capEvents_eq_one
    {G : Graph} {dem : Demands} {a : Arc}
    (harc : (G.arcs.map (fun b => (b.tail, b.head))).Nodup)
    (ha : a ∈ G.arcs) :
    (capEvents G dem).countP (isCapFor a.tail a.head) = 1 := by
  rw [capEvents, List.countP_map]
  have hpt : ∀ b ∈ G.arcs,
      ((isCapFor a.tail a.head) ∘ (fun b => Event.addConstr (capConstr dem b))) b = true
      ↔ (decide ((b.tail, b.head) = (a.tail, a.head))) = true := by
    intro b _
    simp [isCapFor, capEventKey, capConstr]
  rw [List.countP_congr hpt]
  exact countP_key_unique G.arcs (fun b => (b.tail, b.head)) (a.tail, a.head) harc a ha rfl

/-- The possible shapes of an objective-phase event. -/
theorem mem_objEvents {G : Graph} {dem : Demands} {objective : String} {e : Event}
    (he : e ∈ objEvents G dem objective) :
    e = Event.addVar Var.util 0 none
      ∨ (∃ ex dir, e = Event.setObjective ex dir)
      ∨ (∃ a ∈ G.arcs, e = Event.addConstr (utilConstr dem a))
      ∨ (∃ msg, e = Event.raiseError msg) := by
  by_cases h1 : objective = "cost"
  · simp only [objEvents, if_pos h1, List.mem_singleton] at he
    exact Or.inr (Or.inl ⟨_, _, he⟩)
  by_cases h2 : objective = "max_utlilization"
  · simp only [objEvents, if_neg h1, if_pos h2, List.mem_cons] at he
    rcases he with rfl | he'
    · exact Or.inl rfl
    · rcases mem_utilLoopEvents he' with ⟨a, ha, rfl⟩ | rfl | rfl
      · exact Or.inr (Or.inr (Or.inl ⟨a, ha, rfl⟩))
      · exact Or.inr (Or.inl ⟨_, _, rfl⟩)
      · exact Or.inr (Or.inr (Or.inr ⟨_, rfl⟩))
  by_cases h3 : objective = "avg_utilisation"
  · simp only [objEvents, if_neg h1, if_neg h2, if_pos h3] at he
    by_cases h4 : G.arcs.any (fun a => decide (a.capacity = 0))
    · simp only [if_pos h4, List.mem_singleton] at he
      subst he
      exact Or.inr (Or.inr (Or.inr ⟨_, rfl⟩))
    · by_cases h5 : G.arcs.isEmpty
      · simp only [if_neg h4, if_pos h5, List.mem_singleton] at he
        subst he
        exact Or.inr (Or.inr (Or.inr ⟨_, rfl⟩))
      · simp only [if_neg h4, if_neg h5, List.mem_singleton] at he
        subst he
        exact Or.inr (Or.inl ⟨_, _, rfl⟩)
  · simp only [objEvents, if_neg h1, if_neg h2, if_neg h3, List.mem_singleton] at he
    subst he
    exact Or.inr (Or.inr (Or.inr ⟨_, rfl⟩))

/-- Exactly one flow variable per (demand, arc) pair over the whole build. -/
theorem countP_buildEvents_flowVar
    {G : Graph} {dem : Demands} {objective : String} {i j : Node} {vol : ℚ} {a : Arc}
    (hdem : (dem.map (fun d => d.1)).Nodup)
    (harc : (G.arcs.map (fun b => (b.tail, b.head))).Nodup)
    (hd : ((i, j), vol) ∈ dem) (ha : a ∈ G.arcs) :
    (buildEvents G dem objective).countP (isFlowVarAdd i j a.tail a.head) = 1 := by
  rw [buildEvents, List.countP_append, List.countP_append, List.countP_append]
  have h1 := countP_flowVarEvents_eq_one hdem harc hd ha
  have h2 : (consEvents G dem).countP (isFlowVarAdd i j a.tail a.head) = 0 := by
    refine countP_zero_of_key_none _ flowVarKey _ ?_
    intro e he
    obtain ⟨d, _, n, _, rfl⟩ := mem_consEvents he
    rfl
  have h3 : (capEvents G dem).countP (isFlowVarAdd i j a.tail a.head) = 0 := by
    refine countP_zero_of_key_none _ flowVarKey _ ?_
    intro e he
    obtain ⟨b, _, rfl⟩ := mem_capEvents he
    rfl
  have h4 : (objEvents G dem objective).countP (isFlowVarAdd i j a.tail a.head) = 0 := by
    refine countP_zero_of_key_none _ flowVarKey _ ?_
    intro e he
    exact (objEvents_keys_none G dem objective e he).1
  rw [h1, h2, h3, h4]

/-- Exactly one conservation constraint per (demand, node) pair over the
whole build. -/
theorem countP_buildEvents_cons
    {G : Graph} {dem : Demands} {objective : String} {i j : Node} {vol : ℚ} {n : Node}
    (hdem : (dem.map (fun d => d.1)).Nodup)
    (hnodes : G.nodes.Nodup)
    (hd : ((i, j), vol) ∈ dem) (hn : n ∈ G.nodes) :
    (buildEvents G dem objective).countP (isConsFor i j n) = 1 := by
  rw [buildEvents, List.countP_append, List.countP_append, List.countP_append]
  have h1 : (flowVarEvents G dem).countP (isConsFor i j n) = 0 := by
    refine countP_zero_of_key_none _ consEventKey _ ?_
    intro e he
    obtain ⟨d, _, b, _, rfl⟩ := mem_flowVarEvents he
    rfl
  have h2 := @countP_consEvents_eq_one G dem i j vol n hdem hnodes hd hn
  have h3 : (capEvents G dem).countP (isConsFor i j n) = 0 := by
    refine countP_zero_of_key_none _ consEventKey _ ?_
    intro e he
    obtain ⟨b, _, rfl⟩ := mem_capEvents he
    rfl
  have h4 : (objEvents G dem objective).countP (isConsFor i j n) = 0 := by
    refine countP_zero_of_key_none _ consEventKey _ ?_
    intro e he
    exact (objEvents_keys_none G dem objective e he).2.1
  rw [h1, h2, h3, h4]

/-- Exactly one capacity constraint per arc over the whole build. -/
theorem countP_buildEvents_cap
    {G : Graph} {dem : Demands} {objective : String} {a : Arc}
    (harc : (G.arcs.map (fun b => (b.tail, b.head))).Nodup)
    (ha : a ∈ G.arcs) :
    (buildEvents G dem objective).countP (isCapFor a.tail a.head) = 1 := by
  rw [buildEvents, List.countP_append, List.countP_append, List.countP_append]
  have h1 : (flowVarEvents G dem).countP (isCapFor a.tail a.head) = 0 := by
    refine countP_zero_of_key_none _ capEventKey _ ?_
    intro e he
    obtain ⟨d, _, b, _, rfl⟩ := mem_flowVarEvents he
    rfl
  have h2 : (consEvents G dem).countP (isCapFor a.tail a.head) = 0 := by
    refine countP_zero_of_key_none _ capEventKey _ ?_
    intro e he
    obtain ⟨d, _, n, _, rfl⟩ := mem_consEvents he
    simp [capEventKey, consConstr]
    split_ifs <;> rfl
  have h3 := @countP_capEvents_eq_one G dem a harc ha
  have h4 : (objEvents G dem objective).countP (isCapFor a.tail a.head) = 0 := by
    refine countP_zero_of_key_none _ capEventKey _ ?_
    intro e he
    exact (objEvents_keys_none G dem objective e he).2.2
  rw [h1, h2, h3, h4]

/-- Any conservation-constraint event for `(i, j, n)` in the build is
exactly the constraint `consConstr G i j n`. -/
theorem consEvent_value
    {G : Graph} {dem : Demands} {objective : String} {i j n : Node} {e : Event}
    (he : e ∈ buildEvents G dem objective) (hc : isConsFor i j n e = true) :
    e = Event.addConstr (consConstr G i j n) := by
  simp only [isConsFor, decide_eq_true_eq] at hc
  rw [buildEvents] at he
  simp only [List.mem_append] at he
  rcases he with ((he | he) | he) | he
  · obtain ⟨d, _, b, _, rfl⟩ := mem_flowVarEvents he
    cases hc
  · obtain ⟨d, hdm, m, _, rfl⟩ := mem_consEvents he
    have hkey : consEventKey (Event.addConstr (consConstr G d.1.1 d.1.2 m))
        = some (d.1.1, d.1.2, m) := by
      simp [consEventKey, consConstr_tagKey]
    rw [hkey] at hc
    obtain ⟨h1, h2, h3⟩ : d.1.1 = i ∧ d.1.2 = j ∧ m = n := by
      simpa [Prod.ext_iff] using hc
    rw [h1, h2, h3]
  · obtain ⟨b, _, rfl⟩ := mem_capEvents he
    simp only [consEventKey, capConstr] at hc
    cases hc
  · have := (objEvents_keys_none G dem objective e he).2.1
    rw [this] at hc
    cases hc

/-- Any capacity-constraint event for `(u, v)` in the build is the capacity
constraint of an arc of the graph with that key. -/
theorem capEvent_value
    {G : Graph} {dem : Demands} {objective : String} {u v : Node} {e : Event}
    (he : e ∈ buildEvents G dem objective) (hc : isCapFor u v e = true) :
    ∃ a ∈ G.arcs, a.tail = u ∧ a.head = v ∧ e = Event.addConstr (capConstr dem a) := by
  simp only [isCapFor, decide_eq_true_eq] at hc
  rw [buildEvents] at he
  simp only [List.mem_append] at he
  rcases he with ((he | he) | he) | he
  · obtain ⟨d, _, b, _, rfl⟩ := mem_flowVarEvents he
    cases hc
  · obtain ⟨d, _, m, _, rfl⟩ := mem_consEvents he
    have : capEventKey (Event.addConstr (consConstr G d.1.1 d.1.2 m)) = none := by
      simp [capEventKey, consConstr]
      split_ifs <;> rfl
    rw [this] at hc
    cases hc
  · obtain ⟨b, hb, rfl⟩ := mem_capEvents he
    simp only [capEventKey, capConstr] at hc
    obtain ⟨h1, h2⟩ : b.tail = u ∧ b.head = v := by
      simpa [Prod.ext_iff] using hc
    exact ⟨b, hb, h1, h2, rfl⟩
  · have := (objEvents_keys_none G dem objective e he).2.2
    rw [this] at hc
    cases hc

/-- Any flow-variable-creation event in the build has bounds `[0, 1]` and a
key drawn from the demand keys and the arcs. -/
theorem flowVar_event_form
    {G : Graph} {dem : Demands} {objective : String} {e : Event}
    (he : e ∈ buildEvents G dem objective)
    {i j u v : Node} {lb : ℚ} {ub : Option ℚ}
    (hform : e = Event.addVar (Var.flow i j u v) lb ub) :
    lb = 0 ∧ ub = some 1 ∧ (i, j) ∈ dem.map (fun d => d.1)
      ∧ (u, v) ∈ G.arcs.map (fun b => (b.tail, b.head)) := by
  subst hform
  rw [buildEvents] at he
  simp only [List.mem_append] at he
  rcases he with ((he | he) | he) | he
  · obtain ⟨d, hdm, b, hb, heq⟩ := mem_flowVarEvents he
    obtain ⟨h1, h2, h3, h4, h5, h6⟩ :
        d.1.1 = i ∧ d.1.2 = j ∧ b.tail = u ∧ b.head = v ∧ (0 : ℚ) = lb ∧ some (1 : ℚ) = ub := by
      cases heq
      exact ⟨rfl, rfl, rfl, rfl, rfl, rfl⟩
    refine ⟨h5.symm, h6.symm, ?_, ?_⟩
    · rw [← h1, ← h2]
      exact List.mem_map_of_mem (fun d => d.1) hdm
    · rw [← h3, ← h4]
      exact List.mem_map_of_mem (fun b => (b.tail, b.head)) hb
  · obtain ⟨d, _, m, _, heq⟩ := mem_consEvents he
    cases heq
  · obtain ⟨b, _, heq⟩ := mem_capEvents he
    cases heq
  · rcases mem_objEvents he with heq | ⟨ex, dir, heq⟩ | ⟨a, _, heq⟩ | ⟨msg, heq⟩
    · cases heq
    · cases heq
    · cases heq
    · cases heq

/-! ### Coefficients of the generated constraints -/

theorem coeff_inExpr_other (G : Graph) {i j : Node} (n : Node) {i' j' : Node}
    (u' v' : Node) (hne : (i', j') ≠ (i, j)) :
    coeff (inExpr G i j n) (Var.flow i' j' u' v') = 0 := by
  refine coeffT_eq_zero_of_forall_ne _ _ ?_
  intro t ht
  simp only [inExpr, List.mem_map, List.mem_filter] at ht
  obtain ⟨b, _, rfl⟩ := ht
  intro hvar
  obtain ⟨h1, h2, _, _⟩ : i = i' ∧ j = j' ∧ b.tail = u' ∧ b.head = v' := by
    simpa [Var.flow.injEq] using hvar
  exact hne (by rw [Prod.ext_iff]; exact ⟨h1.symm, h2.symm⟩)

theorem coeff_outExpr_other (G : Graph) {i j : Node} (n : Node) {i' j' : Node}
    (u' v' : Node) (hne : (i', j') ≠ (i, j)) :
    coeff (outExpr G i j n) (Var.flow i' j' u' v') = 0 := by
  refine coeffT_eq_zero_of_forall_ne _ _ ?_
  intro t ht
  simp only [outExpr, List.mem_map, List.mem_filter] at ht
  obtain ⟨b, _, rfl⟩ := ht
  intro hvar
  obtain ⟨h1, h2, _, _⟩ : i = i' ∧ j = j' ∧ b.tail = u' ∧ b.head = v' := by
    simpa [Var.flow.injEq] using hvar
  exact hne (by rw [Prod.ext_iff]; exact ⟨h1.symm, h2.symm⟩)

theorem coeff_inExpr_util (G : Graph) (i j n : Node) :
    coeff (inExpr G i j n) Var.util = 0 := by
  refine coeffT_eq_zero_of_forall_ne _ _ ?_
  intro t ht
  simp only [inExpr, List.mem_map, List.mem_filter] at ht
  obtain ⟨b, _, rfl⟩ := ht
  intro hvar
  cases hvar

theorem coeff_outExpr_util (G : Graph) (i j n : Node) :
    coeff (outExpr G i j n) Var.util = 0 := by
  refine coeffT_eq_zero_of_forall_ne _ _ ?_
  intro t ht
  simp only [outExpr, List.mem_map, List.mem_filter] at ht
  obtain ⟨b, _, rfl⟩ := ht
  intro hvar
  cases hvar

theorem coeff_inExpr_key {G : Graph} {a : Arc} (i j n : Node)
    (harc : (G.arcs.map (fun b => (b.tail, b.head))).Nodup)
    (ha : a ∈ G.arcs) :
    coeff (inExpr G i j n) (Var.flow i j a.tail a.head)
      = if a.head = n then 1 else 0 := by
  have hstep : coeff (inExpr G i j n) (Var.flow i j a.tail a.head)
      = (G.arcs.map (fun b =>
          if (decide (b.head = n)) = true ∧ Var.flow i j b.tail b.head = Var.flow i j a.tail a.head
          then (1 : ℚ) else 0)).sum :=
    coeffT_filter_map_pair G.arcs (fun b => decide (b.head = n)) (fun _ => (1 : ℚ))
      (fun b => Var.flow i j b.tail b.head) (Var.flow i j a.tail a.head)
  rw [hstep]
  have hpt : ∀ b ∈ G.arcs,
      (if (decide (b.head = n)) = true ∧ Var.flow i j b.tail b.head = Var.flow i j a.tail a.head
        then (1 : ℚ) else 0)
      = (if (b.tail, b.head) = (a.tail, a.head) then (if a.head = n then (1 : ℚ) else 0) else 0) := by
    intro b _
    by_cases hk : (b.tail, b.head) = (a.tail, a.head)
    · obtain ⟨h1, h2⟩ : b.tail = a.tail ∧ b.head = a.head := by simpa [Prod.ext_iff] using hk
      rw [if_pos hk, h1, h2]
      by_cases hn : a.head = n
      · simp [hn]
      · simp [hn]
    · rw [if_neg hk]
      have : ¬ ((decide (b.head = n)) = true ∧ Var.flow i j b.tail b.head = Var.flow i j a.tail a.head) := by
        intro ⟨_, hvar⟩
        obtain ⟨h1, h2⟩ : b.tail = a.tail ∧ b.head = a.head := by
          simpa [Var.flow.injEq] using hvar
        exact hk (by rw [Prod.ext_iff]; exact ⟨h1, h2⟩)
      rw [if_neg this]
  rw [List.map_congr_left hpt]
  exact sum_map_ite_key G.arcs (fun b => (b.tail, b.head)) (a.tail, a.head)
    (fun _ => if a.head = n then (1 : ℚ) else 0) harc a ha rfl

theorem coeff_outExpr_key {G : Graph} {a : Arc} (i j n : Node)
    (harc : (G.arcs.map (fun b => (b.tail, b.head))).Nodup)
    (ha : a ∈ G.arcs) :
    coeff (outExpr G i j n) (Var.flow i j a.tail a.head)
      = if a.tail = n then 1 else 0 := by
  have hstep : coeff (outExpr G i j n) (Var.flow i j a.tail a.head)
      = (G.arcs.map (fun b =>
          if (decide (b.tail = n)) = true ∧ Var.flow i j b.tail b.head = Var.flow i j a.tail a.head
          then (1 : ℚ) else 0)).sum :=
    coeffT_filter_map_pair G.arcs (fun b => decide (b.tail = n)) (fun _ => (1 : ℚ))
      (fun b => Var.flow i j b.tail b.head) (Var.flow i j a.tail a.head)
  rw [hstep]
  have hpt : ∀ b ∈ G.arcs,
      (if (decide (b.tail = n)) = true ∧ Var.flow i j b.tail b.head = Var.flow i j a.tail a.head
        then (1 : ℚ) else 0)
      = (if (b.tail, b.head) = (a.tail, a.head) then (if a.tail = n then (1 : ℚ) else 0) else 0) := by
    intro b _
    by_cases hk : (b.tail, b.head) = (a.tail, a.head)
    · obtain ⟨h1, h2⟩ : b.tail = a.tail ∧ b.head = a.head := by simpa [Prod.ext_iff] using hk
      rw [if_pos hk, h1, h2]
      by_cases hn : a.tail = n
      · simp [hn]
      · simp [hn]
    · rw [if_neg hk]
      have : ¬ ((decide (b.tail = n)) = true ∧ Var.flow i j b.tail b.head = Var.flow i j a.tail a.head) := by
        intro ⟨_, hvar⟩
        obtain ⟨h1, h2⟩ : b.tail = a.tail ∧ b.head = a.head := by
          simpa [Var.flow.injEq] using hvar
        exact hk (by rw [Prod.ext_iff]; exact ⟨h1, h2⟩)
      rw [if_neg this]
  rw [List.map_congr_left hpt]
  exact sum_map_ite_key G.arcs (fun b => (b.tail, b.head)) (a.tail, a.head)
    (fun _ => if a.tail = n then (1 : ℚ) else 0) harc a ha rfl

/-- Weighted coefficient of a demand-keyed term list (used for capacity and
utilization constraints): with unique demand keys, the aggregate coefficient
of demand `(i, j)`'s variable is its own weight. -/
theorem coeffT_demand_map {dem : Demands} {i j : Node} {vol : ℚ}
    (g : ((Node × Node) × ℚ) → ℚ) (u v : Node)
    (hdem : (dem.map (fun d => d.1)).Nodup)
    (hd : ((i, j), vol) ∈ dem) :
    coeffT (dem.map (fun d => (g d, Var.flow d.1.1 d.1.2 u v))) (Var.flow i j u v)
      = g ((i, j), vol) := by
  rw [show (fun (d : (Node × Node) × ℚ) => (g d, Var.flow d.1.1 d.1.2 u v))
      = (fun d => (g d, (fun d => Var.flow d.1.1 d.1.2 u v) d)) from rfl]
  rw [coeffT_map_pair]
  have hpt : ∀ d ∈ dem,
      (if Var.flow d.1.1 d.1.2 u v = Var.flow i j u v then g d else 0)
      = (if d.1 = (i, j) then g d else 0) := by
    intro d _
    by_cases hk : d.1 = (i, j)
    · obtain ⟨h1, h2⟩ : d.1.1 = i ∧ d.1.2 = j := by simpa [Prod.ext_iff] using hk
      rw [if_pos hk, h1, h2, if_pos rfl]
    · rw [if_neg hk]
      have : ¬ Var.flow d.1.1 d.1.2 u v = Var.flow i j u v := by
        intro hvar
        obtain ⟨h1, h2, _, _⟩ : d.1.1 = i ∧ d.1.2 = j ∧ u = u ∧ v = v := by
          simpa [Var.flow.injEq] using hvar
        exact hk (by rw [Prod.ext_iff]; exact ⟨h1, h2⟩)
      rw [if_neg this]
  rw [List.map_congr_left hpt]
  exact sum_map_ite_key dem (fun d => d.1) (i, j) g hdem ((i, j), vol) hd rfl

/-- A demand-keyed term list on arc `(u, v)` mentions no variable on a
different arc and no variable of a foreign demand pattern. -/
theorem coeffT_demand_map_other {dem : Demands}
    (g : ((Node × Node) × ℚ) → ℚ) (u v : Node) {w : Var}
    (hw : ∀ i j : Node, w ≠ Var.flow i j u v) :
    coeffT (dem.map (fun d => (g d, Var.flow d.1.1 d.1.2 u v))) w = 0 := by
  refine coeffT_eq_zero_of_forall_ne _ _ ?_
  intro t ht
  simp only [List.mem_map] at ht
  obtain ⟨d, _, rfl⟩ := ht
  exact fun h => hw d.1.1 d.1.2 h.symm

theorem consConstr_rel (G : Graph) (i j n : Node) :
    (consConstr G i j n).rel = Rel.eq := by
  unfold consConstr
  split_ifs <;> rfl

theorem consConstr_rhs (G : Graph) (i j n : Node) :
    (consConstr G i j n).rhs = AffExpr.ofConst (if n = i ∨ n = j then 1 else 0) := by
  unfold consConstr
  by_cases h1 : n = i
  · rw [if_pos h1, if_pos (Or.inl h1)]
  · by_cases h2 : n = j
    · rw [if_neg h1, if_pos h2, if_pos (Or.inr h2)]
    · rw [if_neg h1, if_neg h2, if_neg (by tauto)]

theorem coeff_consConstr_other (G : Graph) (i j n : Node) {i' j' : Node}
    (u' v' : Node) (hne : (i', j') ≠ (i, j)) :
    coeff (consConstr G i j n).lhs (Var.flow i' j' u' v') = 0 := by
  unfold consConstr
  split_ifs <;>
    simp [coeff_sub, coeff_inExpr_other G n u' v' hne, coeff_outExpr_other G n u' v' hne]

theorem coeff_consConstr_util (G : Graph) (i j n : Node) :
    coeff (consConstr G i j n).lhs Var.util = 0 := by
  unfold consConstr
  split_ifs <;>
    simp [coeff_sub, coeff_inExpr_util, coeff_outExpr_util]

theorem coeff_consConstr_key {G : Graph} {a : Arc} (i j n : Node)
    (harc : (G.arcs.map (fun b => (b.tail, b.head))).Nodup)
    (ha : a ∈ G.arcs) :
    coeff (consConstr G i j n).lhs (Var.flow i j a.tail a.head)
      = if n = i then (if a.tail = n then (1 : ℚ) else 0) - (if a.head = n then 1 else 0)
        else (if a.head = n then (1 : ℚ) else 0) - (if a.tail = n then 1 else 0) := by
  unfold consConstr
  by_cases h1 : n = i
  · simp only [if_pos h1, coeff_sub, coeff_inExpr_key i j n harc ha,
      coeff_outExpr_key i j n harc ha]
  · by_cases h2 : n = j
    · simp only [if_neg h1, if_pos h2, coeff_sub, coeff_inExpr_key i j n harc ha,
        coeff_outExpr_key i j n harc ha]
    · simp only [if_neg h1, if_neg h2, coeff_sub, coeff_inExpr_key i j n harc ha,
        coeff_outExpr_key i j n harc ha]

/-! ### Summing the conservation rows over all nodes -/

theorem sum_map_sub (l : List Node) (f g : Node → ℚ) :
    (l.map (fun y => f y - g y)).sum = (l.map f).sum - (l.map g).sum := by
  induction l with
  | nil => simp
  | cons a l ih =>
    simp only [List.map_cons, List.sum_cons, ih]
    ring

theorem sum_map_ite_eq_const {α : Type} {M : Type} [AddCommMonoid M] [DecidableEq α]
    (l : List α) (x : α) (c : M) (hnd : l.Nodup) :
    (l.map (fun y => if y = x then c else 0)).sum = if x ∈ l then c else 0 := by
  induction l with
  | nil => simp
  | cons a l ih =>
    rw [List.nodup_cons] at hnd
    by_cases h : a = x
    · subst h
      have : (l.map (fun y => if y = a then c else 0)).sum = 0 := by
        refine sum_map_ite_of_forall_ne l (fun y => y = a) (fun _ => c) ?_
        intro y hy hya
        exact hnd.1 (hya ▸ hy)
      simp [this]
    · simp only [List.map_cons, List.sum_cons, if_neg h, zero_add, ih hnd.2,
        List.mem_cons]
      have : (x = a ∨ x ∈ l) ↔ x ∈ l := by
        constructor
        · rintro (rfl | hx)
          · exact absurd rfl h
          · exact hx
        · exact Or.inr
      rw [if_congr this rfl rfl]

/-- Coefficient of an arbitrary flow variable of demand `(i, j)` in the
outgoing-flow sum at `n`, as an explicit sum over the arcs. -/
theorem coeff_outExpr_expand (G : Graph) (i j n u v : Node) :
    coeff (outExpr G i j n) (Var.flow i j u v)
      = (G.arcs.map (fun b => if b.tail = n ∧ b.tail = u ∧ b.head = v
          then (1 : ℚ) else 0)).sum := by
  have hstep : coeff (outExpr G i j n) (Var.flow i j u v)
      = (G.arcs.map (fun b =>
          if (decide (b.tail = n)) = true ∧ Var.flow i j b.tail b.head = Var.flow i j u v
          then (1 : ℚ) else 0)).sum :=
    coeffT_filter_map_pair G.arcs (fun b => decide (b.tail = n)) (fun _ => (1 : ℚ))
      (fun b => Var.flow i j b.tail b.head) (Var.flow i j u v)
  rw [hstep]
  refine congrArg List.sum (List.map_congr_left ?_)
  intro b _
  refine if_congr ?_ rfl rfl
  simp [Var.flow.injEq]

/-- Coefficient of an arbitrary flow variable of demand `(i, j)` in the
incoming-flow sum at `n`, as an explicit sum over the arcs. -/
theorem coeff_inExpr_expand (G : Graph) (i j n u v : Node) :
    coeff (inExpr G i j n) (Var.flow i j u v)
      = (G.arcs.map (fun b => if b.head = n ∧ b.tail = u ∧ b.head = v
          then (1 : ℚ) else 0)).sum := by
  have hstep : coeff (inExpr G i j n) (Var.flow i j u v)
      = (G.arcs.map (fun b =>
          if (decide (b.head = n)) = true ∧ Var.flow i j b.tail b.head = Var.flow i j u v
          then (1 : ℚ) else 0)).sum :=
    coeffT_filter_map_pair G.arcs (fun b => decide (b.head = n)) (fun _ => (1 : ℚ))
      (fun b => Var.flow i j b.tail b.head) (Var.flow i j u v)
  rw [hstep]
  refine congrArg List.sum (List.map_congr_left ?_)
  intro b _
  refine if_congr ?_ rfl rfl
  simp [Var.flow.injEq]

theorem coeff_outExpr_zero_of_not_node (G : Graph) (i j n u v : Node)
    (hends : ∀ a ∈ G.arcs, a.tail ∈ G.nodes ∧ a.head ∈ G.nodes)
    (hn : n ∉ G.nodes) :
    coeff (outExpr G i j n) (Var.flow i j u v) = 0 := by
  rw [coeff_outExpr_expand]
  refine sum_map_ite_of_forall_ne G.arcs _ (fun _ => (1 : ℚ)) ?_
  intro b hb ⟨h1, _, _⟩
  exact hn (h1 ▸ (hends b hb).1)

theorem coeff_inExpr_zero_of_not_node (G : Graph) (i j n u v : Node)
    (hends : ∀ a ∈ G.arcs, a.tail ∈ G.nodes ∧ a.head ∈ G.nodes)
    (hn : n ∉ G.nodes) :
    coeff (inExpr G i j n) (Var.flow i j u v) = 0 := by
  rw [coeff_inExpr_expand]
  refine sum_map_ite_of_forall_ne G.arcs _ (fun _ => (1 : ℚ)) ?_
  intro b hb ⟨h1, _, _⟩
  exact hn (h1 ▸ (hends b hb).2)

/-- Summed over all nodes, the outgoing-flow coefficient of a flow variable
counts the arcs with key `(u, v)` once each. -/
theorem sum_nodes_coeff_out (G : Graph) (i j u v : Node)
    (hnodes : G.nodes.Nodup)
    (hends : ∀ a ∈ G.arcs, a.tail ∈ G.nodes ∧ a.head ∈ G.nodes) :
    (G.nodes.map (fun n => coeff (outExpr G i j n) (Var.flow i j u v))).sum
      = (G.arcs.map (fun b => if b.tail = u ∧ b.head = v then (1 : ℚ) else 0)).sum := by
  have hexp : ∀ n ∈ G.nodes,
      coeff (outExpr G i j n) (Var.flow i j u v)
        = (G.arcs.map (fun b => if b.tail = n ∧ b.tail = u ∧ b.head = v
            then (1 : ℚ) else 0)).sum := by
    intro n _
    exact coeff_outExpr_expand G i j n u v
  rw [List.map_congr_left hexp]
  rw [sum_map_comm G.nodes G.arcs
    (fun n b => if b.tail = n ∧ b.tail = u ∧ b.head = v then (1 : ℚ) else 0)]
  refine congrArg List.sum (List.map_congr_left ?_)
  intro b hb
  by_cases hkey : b.tail = u ∧ b.head = v
  · rw [if_pos hkey]
    have hpt : ∀ n ∈ G.nodes,
        (if b.tail = n ∧ b.tail = u ∧ b.head = v then (1 : ℚ) else 0)
          = (if n = b.tail then (1 : ℚ) else 0) := by
      intro n _
      by_cases h : b.tail = n
      · rw [if_pos ⟨h, hkey⟩, if_pos h.symm]
      · rw [if_neg (fun hc => h hc.1), if_neg (fun hc => h hc.symm)]
    rw [List.map_congr_left hpt,
      sum_map_ite_eq_const G.nodes b.tail (1 : ℚ) hnodes,
      if_pos (hends b hb).1]
  · rw [if_neg hkey]
    refine sum_map_ite_of_forall_ne G.nodes _ (fun _ => (1 : ℚ)) ?_
    intro n _ hc
    exact hkey hc.2

/-- Summed over all nodes, the incoming-flow coefficient of a flow variable
counts the arcs with key `(u, v)` once each. -/
theorem sum_nodes_coeff_in (G : Graph) (i j u v : Node)
    (hnodes : G.nodes.Nodup)
    (hends : ∀ a ∈ G.arcs, a.tail ∈ G.nodes ∧ a.head ∈ G.nodes) :
    (G.nodes.map (fun n => coeff (inExpr G i j n) (Var.flow i j u v))).sum
      = (G.arcs.map (fun b => if b.tail = u ∧ b.head = v then (1 : ℚ) else 0)).sum := by
  have hexp : ∀ n ∈ G.nodes,
      coeff (inExpr G i j n) (Var.flow i j u v)
        = (G.arcs.map (fun b => if b.head = n ∧ b.tail = u ∧ b.head = v
            then (1 : ℚ) else 0)).sum := by
    intro n _
    exact coeff_inExpr_expand G i j n u v
  rw [List.map_congr_left hexp]
  rw [sum_map_comm G.nodes G.arcs
    (fun n b => if b.head = n ∧ b.tail = u ∧ b.head = v then (1 : ℚ) else 0)]
  refine congrArg List.sum (List.map_congr_left ?_)
  intro b hb
  by_cases hkey : b.tail = u ∧ b.head = v
  · rw [if_pos hkey]
    have hpt : ∀ n ∈ G.nodes,
        (if b.head = n ∧ b.tail = u ∧ b.head = v then (1 : ℚ) else 0)
          = (if n = b.head then (1 : ℚ) else 0) := by
      intro n _
      by_cases h : b.head = n
      · rw [if_pos ⟨h, hkey⟩, if_pos h.symm]
      · rw [if_neg (fun hc => h hc.1), if_neg (fun hc => h hc.symm)]
    rw [List.map_congr_left hpt,
      sum_map_ite_eq_const G.nodes b.head (1 : ℚ) hnodes,
      if_pos (hends b hb).2]
  · rw [if_neg hkey]
    refine sum_map_ite_of_forall_ne G.nodes _ (fun _ => (1 : ℚ)) ?_
    intro n _ hc
    exact hkey hc.2

/-- The conservation left-hand side at `n`, for a variable of its own
demand, written through the in/out coefficient difference. -/
theorem coeff_consConstr_lhs_gen (G : Graph) (i j n u v : Node) :
    coeff (consConstr G i j n).lhs (Var.flow i j u v)
      = if n = i
        then coeff (outExpr G i j n) (Var.flow i j u v)
              - coeff (inExpr G i j n) (Var.flow i j u v)
        else coeff (inExpr G i j n) (Var.flow i j u v)
              - coeff (outExpr G i j n) (Var.flow i j u v) := by
  unfold consConstr
  by_cases h1 : n = i
  · simp only [if_pos h1, coeff_sub]
  · by_cases h2 : n = j
    · simp only [if_neg h1, if_pos h2, coeff_sub]
    · simp only [if_neg h1, if_neg h2, coeff_sub]

/-! ### Concrete instances used for counterexamples and witnesses -/

/-- A two-node graph with the single arc `0 → 1`, capacity 2, cost 5. -/
def Gex : Graph := ⟨[0, 1], [⟨0, 1, 2, 5⟩]⟩

/-- The arc of `Gex`. -/
def arcEx : Arc := ⟨0, 1, 2, 5⟩

/-- One demand `(0, 1)` of volume 1. -/
def demEx : Demands := [((0, 1), 1)]

/-- Two demands `(0, 1)` and `(1, 0)`, volume 1 each. -/
def demEx2 : Demands := [((0, 1), 1), ((1, 0), 1)]

/-- A demand whose endpoints `5, 6` are not nodes of `Gex`. -/
def demRogue : Demands := [((5, 6), 1)]

/-- Two nodes, no arcs: the demand `(0, 1)` is unroutable. -/
def GNoArcs : Graph := ⟨[0, 1], []⟩

/-- A solver oracle reporting OPTIMAL with all-zero values. -/
def oracleOpt : Oracle := ⟨Status.optimal, fun _ => 0, 0⟩

/-- A solver oracle reporting INFEASIBLE. -/
def oracleInf : Oracle := ⟨Status.infeasible, fun _ => 0, 0⟩

/-- A solver oracle reporting UNBOUNDED. -/
def oracleUnb : Oracle := ⟨Status.unbounded, fun _ => 0, 0⟩

/-! ### Claim C1 -/

/-- Claim C1: for every graph, demand mapping and recognized objective, the
model built by `solve_linear_program` contains exactly one flow variable per
(demand, arc) pair, every flow variable has bounds `[0, 1]` and a
(demand, arc) key of the instance, and for every demand `(i, j)` and node
`n` exactly one flow-conservation equality constraint over demand `(i, j)`'s
variables: `(outgoing) − (incoming) = 1` at `n = i`,
`(incoming) − (outgoing) = 1` at `n = j`, and `(incoming) − (outgoing) = 0`
elsewhere (expressed by the per-arc coefficients of the left-hand side and
the right-hand side constant). -/
theorem C1_model_structure
    (G : Graph) (dem : Demands) (objective : String)
    (_hobj : recognizedObjective objective)
    (hdem : (dem.map (fun d => d.1)).Nodup)
    (harc : (G.arcs.map (fun b => (b.tail, b.head))).Nodup)
    (hnodes : G.nodes.Nodup) :
    (∀ i j : Node, ∀ vol : ℚ, ∀ a : Arc, ((i, j), vol) ∈ dem → a ∈ G.arcs →
        (buildEvents G dem objective).countP (isFlowVarAdd i j a.tail a.head) = 1)
    ∧ (∀ e ∈ buildEvents G dem objective, ∀ i j u v : Node, ∀ lb : ℚ, ∀ ub : Option ℚ,
        e = Event.addVar (Var.flow i j u v) lb ub →
          lb = 0 ∧ ub = some 1 ∧ (i, j) ∈ dem.map (fun d => d.1)
            ∧ (u, v) ∈ G.arcs.map (fun b => (b.tail, b.head)))
    ∧ (∀ i j : Node, ∀ vol : ℚ, ∀ n : Node, ((i, j), vol) ∈ dem → n ∈ G.nodes → i ≠ j →
        (buildEvents G dem objective).countP (isConsFor i j n) = 1
        ∧ (∀ e ∈ buildEvents G dem objective, isConsFor i j n e = true →
            e = Event.addConstr (consConstr G i j n))
        ∧ (consConstr G i j n).rel = Rel.eq
        ∧ (consConstr G i j n).rhs = AffExpr.ofConst (if n = i ∨ n = j then 1 else 0)
        ∧ (∀ i' j' u' v' : Node, (i', j') ≠ (i, j) →
            coeff (consConstr G i j n).lhs (Var.flow i' j' u' v') = 0)
        ∧ coeff (consConstr G i j n).lhs Var.util = 0
        ∧ (∀ a ∈ G.arcs,
            coeff (consConstr G i j n).lhs (Var.flow i j a.tail a.head)
              = if n = i then (if a.tail = n then (1 : ℚ) else 0) - (if a.head = n then 1 else 0)
                else (if a.head = n then (1 : ℚ) else 0) - (if a.tail = n then 1 else 0))) := by
  refine ⟨?_, ?_, ?_⟩
  · intro i j vol a hd ha
    exact countP_buildEvents_flowVar hdem harc hd ha
  · intro e he i j u v lb ub hform
    exact flowVar_event_form he hform
  · intro i j vol n hd hn _
    refine ⟨countP_buildEvents_cons hdem hnodes hd hn,
      fun e he hc => consEvent_value he hc,
      consConstr_rel G i j n,
      consConstr_rhs G i j n,
      fun i' j' u' v' hne => coeff_consConstr_other G i j n u' v' hne,
      coeff_consConstr_util G i j n,
      fun a ha => coeff_consConstr_key i j n harc ha⟩

/-! ### Replay lemmas -/

theorem replayProg_no_raise (evs : List Event) :
    ∀ st : ProgState, (∀ e ∈ evs, isRaise e = false) →
      (replayProg evs st).2 = none := by
  induction evs with
  | nil => intro st _; rfl
  | cons e rest ih =>
    intro st h
    cases e with
    | raiseError msg =>
      have := h (Event.raiseError msg) (List.mem_cons_self _ _)
      cases this
    | addVar v lb ub =>
      exact ih _ (fun e' he' => h e' (List.mem_cons_of_mem _ he'))
    | addConstr c =>
      exact ih _ (fun e' he' => h e' (List.mem_cons_of_mem _ he'))
    | setObjective ex d =>
      exact ih _ (fun e' he' => h e' (List.mem_cons_of_mem _ he'))

theorem replayProg_append_raise (evs : List Event) (msg : String) (tail : List Event) :
    ∀ st : ProgState, (∀ e ∈ evs, isRaise e = false) →
      (replayProg (evs ++ Event.raiseError msg :: tail) st).2 = some msg := by
  induction evs with
  | nil => intro st _; rfl
  | cons e rest ih =>
    intro st h
    cases e with
    | raiseError m =>
      have := h (Event.raiseError m) (List.mem_cons_self _ _)
      cases this
    | addVar v lb ub =>
      exact ih _ (fun e' he' => h e' (List.mem_cons_of_mem _ he'))
    | addConstr c =>
      exact ih _ (fun e' he' => h e' (List.mem_cons_of_mem _ he'))
    | setObjective ex d =>
      exact ih _ (fun e' he' => h e' (List.mem_cons_of_mem _ he'))

theorem buildModel_error_of_snd {G : Graph} {dem : Demands} {objective : String}
    {msg : String} (h : (buildModelSt G dem objective).2 = some msg) :
    buildModel G dem objective = Except.error msg := by
  unfold buildModel
  rcases hbs : buildModelSt G dem objective with ⟨st, o⟩
  rw [hbs] at h
  simp only at h
  subst h
  rfl

theorem buildModel_ok_of_snd {G : Graph} {dem : Demands} {objective : String}
    (h : (buildModelSt G dem objective).2 = none) :
    buildModel G dem objective = Except.ok (buildModelSt G dem objective).1.model := by
  unfold buildModel
  rcases hbs : buildModelSt G dem objective with ⟨st, o⟩
  rw [hbs] at h
  simp only at h
  subst h
  rfl

/-- The variable, conservation and capacity phases never raise. -/
theorem modelPhase_no_raise (G : Graph) (dem : Demands) :
    ∀ e ∈ flowVarEvents G dem ++ consEvents G dem ++ capEvents G dem,
      isRaise e = false := by
  intro e he
  simp only [List.mem_append] at he
  rcases he with (he | he) | he
  · obtain ⟨d, _, b, _, rfl⟩ := mem_flowVarEvents he
    rfl
  · obtain ⟨d, _, n, _, rfl⟩ := mem_consEvents he
    rfl
  · obtain ⟨b, _, rfl⟩ := mem_capEvents he
    rfl

/-- The cost branch of the objective dispatch. -/
theorem objEvents_cost (G : Graph) (dem : Demands) :
    objEvents G dem "cost" = [Event.setObjective (costExpr G dem) Dir.minimize] := by
  unfold objEvents
  rw [if_pos rfl]

/-- The `max_utlilization` branch of the objective dispatch. -/
theorem objEvents_max (G : Graph) (dem : Demands) :
    objEvents G dem "max_utlilization"
      = Event.addVar Var.util 0 none :: utilLoopEvents dem G.arcs := by
  unfold objEvents
  rw [if_neg (by decide : ¬ ("max_utlilization" : String) = "cost"), if_pos rfl]

/-- The `avg_utilisation` branch of the objective dispatch, when no division
by zero occurs. -/
theorem objEvents_avg (G : Graph) (dem : Demands)
    (hany : G.arcs.any (fun a => decide (a.capacity = 0)) = false)
    (hemp : G.arcs.isEmpty = false) :
    objEvents G dem "avg_utilisation"
      = [Event.setObjective (avgExpr G dem) Dir.minimize] := by
  unfold objEvents
  rw [if_neg (by decide : ¬ ("avg_utilisation" : String) = "cost"),
    if_neg (by decide : ¬ ("avg_utilisation" : String) = "max_utlilization"),
    if_pos rfl, hany, hemp]
  rw [if_neg (by simp), if_neg (by simp)]

/-- With a recognized objective, non-zero capacities and (for the average
objective) at least one arc, the objective phase never raises. -/
theorem objEvents_no_raise (G : Graph) (dem : Demands) (objective : String)
    (hobj : recognizedObjective objective)
    (hcap : ∀ a ∈ G.arcs, a.capacity ≠ 0)
    (hne : objective = "avg_utilisation" → G.arcs ≠ []) :
    ∀ e ∈ objEvents G dem objective, isRaise e = false := by
  intro e he
  rcases hobj with h1 | h2 | h3
  · subst h1
    rw [objEvents_cost, List.mem_singleton] at he
    subst he
    rfl
  · subst h2
    rw [objEvents_max, List.mem_cons] at he
    rcases he with rfl | he'
    · rfl
    · rw [utilLoopEvents_eq_of_caps dem G.arcs hcap] at he'
      simp only [List.mem_append, List.mem_map, List.mem_singleton] at he'
      rcases he' with ⟨b, _, rfl⟩ | rfl
      · rfl
      · rfl
  · subst h3
    have hany : G.arcs.any (fun a => decide (a.capacity = 0)) = false := by
      rw [List.any_eq_false]
      intro a ha
      simpa using hcap a ha
    have hemp : G.arcs.isEmpty = false := by
      rcases hx : G.arcs with _ | ⟨a, rest⟩
      · exact absurd hx (hne rfl)
      · rfl
    rw [objEvents_avg G dem hany hemp, List.mem_singleton] at he
    subst he
    rfl

/-- Under the same side conditions, the whole build succeeds and the solver
is then invoked on the built model. -/
theorem buildModel_ok (G : Graph) (dem : Demands) (objective : String)
    (hobj : recognizedObjective objective)
    (hcap : ∀ a ∈ G.arcs, a.capacity ≠ 0)
    (hne : objective = "avg_utilisation" → G.arcs ≠ []) :
    buildModel G dem objective = Except.ok (buildModelSt G dem objective).1.model := by
  refine buildModel_ok_of_snd ?_
  unfold buildModelSt
  refine replayProg_no_raise _ _ ?_
  intro e he
  rw [buildEvents] at he
  simp only [List.mem_append] at he
  rcases he with ((he | he) | he) | he
  · obtain ⟨d, _, b, _, rfl⟩ := mem_flowVarEvents he
    rfl
  · obtain ⟨d, _, n, _, rfl⟩ := mem_consEvents he
    rfl
  · obtain ⟨b, _, rfl⟩ := mem_capEvents he
    rfl
  · exact objEvents_no_raise G dem objective hobj hcap hne e he

/-! ### Claim C5 -/

/-- Claim C5 counterexample: with the unrecognized selector
`"max_utilisation"` on a one-arc, one-demand instance, the very first
model-building operation is already the creation of a FlowVariable, and the
`ValueError` is only raised at the end — so the build does **not** fail
before any variable is created. -/
theorem C5_unrecognized_cex :
    (buildEvents Gex demEx "max_utilisation").head?
        = some (Event.addVar (Var.flow 0 1 0 1) 0 (some 1))
      ∧ (buildEvents Gex demEx "max_utilisation").getLast?
        = some (Event.raiseError ("Fonction objectif non reconnue"))
      ∧ buildModel Gex demEx "max_utilisation"
        = Except.error ("Fonction objectif non reconnue") :=
  ⟨rfl, rfl, rfl⟩

/-- Claim C5, amended: an unrecognized objective selector does make
`solve_linear_program` raise `ValueError("Fonction objectif non reconnue")`
and no model is returned, but the error is raised only **after** every
FlowVariable and every conservation and capacity constraint has been added
to the model — it is the last model-building operation, not the first. -/
theorem C5_unrecognized_amended (G : Graph) (dem : Demands) (objective : String)
    (h : ¬ recognizedObjective objective) :
    buildModel G dem objective = Except.error unrecognizedMsg
    ∧ buildEvents G dem objective
        = (flowVarEvents G dem ++ consEvents G dem ++ capEvents G dem)
            ++ [Event.raiseError unrecognizedMsg]
    ∧ (buildEvents G dem objective).getLast? = some (Event.raiseError unrecognizedMsg) := by
  have htrace : buildEvents G dem objective
      = (flowVarEvents G dem ++ consEvents G dem ++ capEvents G dem)
          ++ [Event.raiseError unrecognizedMsg] := by
    rw [buildEvents, objEvents_unrecognized G dem h]
  refine ⟨?_, htrace, ?_⟩
  · refine buildModel_error_of_snd ?_
    unfold buildModelSt
    rw [htrace]
    exact replayProg_append_raise _ _ [] _ (modelPhase_no_raise G dem)
  · rw [htrace]
    exact List.getLast?_concat _

/-- Witness for the amended C5 at the concrete unrecognized selector
`"max_utilisation"`. -/
theorem C5_unrecognized_amended_witness :
    (¬ recognizedObjective "max_utilisation")
      ∧ buildModel Gex demEx "max_utilisation"
        = Except.error unrecognizedMsg :=
  ⟨by decide, (C5_unrecognized_amended Gex demEx "max_utilisation" (by decide)).1⟩

/-! ### Claim C6 -/

/-- Claim C6 counterexample: the demand `(5, 6)` references nodes that do
not exist in `Gex`, yet `solve_linear_program` performs no validation —
the model is built without any error (no event raises), and the solver is
invoked and its outcome interpreted. -/
theorem C6_no_validation_cex :
    buildModel Gex demRogue "cost"
        = Except.ok (buildModelSt Gex demRogue "cost").1.model
      ∧ (buildEvents Gex demRogue "cost").countP isRaise = 0
      ∧ solve_linear_program Gex demRogue "cost" oracleOpt
        = interpretResult (flowKeys Gex demRogue) oracleOpt.value
            oracleOpt.objVal oracleOpt.status :=
  ⟨rfl, rfl, rfl⟩

/-- Claim C6, amended: model building performs no node-membership
validation.  A demand `(i, j)` whose endpoints are not nodes of the graph
builds successfully (for a recognized objective, non-zero capacities, and a
non-empty arc list when the objective is the average utilization); all of
that demand's conservation constraints degenerate to the `flow_mid` form
`inflow − outflow = 0` (no source/sink row is ever produced), and the
solver is invoked on the resulting model. -/
theorem C6_no_validation_amended (G : Graph) (dem : Demands) (objective : String)
    (i j : Node) (hi : i ∉ G.nodes) (hj : j ∉ G.nodes)
    (hobj : recognizedObjective objective)
    (hcap : ∀ a ∈ G.arcs, a.capacity ≠ 0)
    (hne : objective = "avg_utilisation" → G.arcs ≠ [])
    (oracle : Oracle) :
    buildModel G dem objective = Except.ok (buildModelSt G dem objective).1.model
    ∧ (∀ n ∈ G.nodes, consConstr G i j n
        = ⟨(inExpr G i j n).sub (outExpr G i j n), Rel.eq, AffExpr.ofConst 0,
            ConstrTag.flowMid i j n⟩)
    ∧ solve_linear_program G dem objective oracle
        = interpretResult (flowKeys G dem) oracle.value oracle.objVal oracle.status := by
  have hok := buildModel_ok G dem objective hobj hcap hne
  refine ⟨hok, ?_, ?_⟩
  · intro n hn
    have hni : ¬ n = i := fun hc => hi (hc ▸ hn)
    have hnj : ¬ n = j := fun hc => hj (hc ▸ hn)
    unfold consConstr
    rw [if_neg hni, if_neg hnj]
  · unfold solve_linear_program
    rw [hok]

/-- Witness for the amended C6: demand `(5, 6)` on `Gex` with the cost
objective and an OPTIMAL oracle. -/
theorem C6_no_validation_amended_witness :
    ((5 : Node) ∉ Gex.nodes ∧ (6 : Node) ∉ Gex.nodes
      ∧ recognizedObjective "cost"
      ∧ (∀ a ∈ Gex.arcs, a.capacity ≠ 0)
      ∧ ("cost" = "avg_utilisation" → Gex.arcs ≠ []))
    ∧ solve_linear_program Gex demRogue "cost" oracleOpt
        = interpretResult (flowKeys Gex demRogue) oracleOpt.value
            oracleOpt.objVal oracleOpt.status := by
  have hcap : ∀ a ∈ Gex.arcs, a.capacity ≠ 0 := by
    intro a ha
    have haeq : a = arcEx := by
      simpa [Gex, arcEx] using ha
    rw [haeq]
    norm_num [arcEx]
  refine ⟨⟨by decide, by decide, Or.inl rfl, hcap, fun h => absurd h (by decide)⟩, ?_⟩
  exact (C6_no_validation_amended Gex demRogue "cost" 5 6 (by decide) (by decide)
    (Or.inl rfl) hcap (fun h => absurd h (by decide)) oracleOpt).2.2

/-! ### Claim C3 -/

/-- Claim C3: the code does **not** return a tagged result.  On the
unroutable instance (two nodes, no arcs, demand `(0, 1)`), an INFEASIBLE
terminal status makes `solve_linear_program` return `None` (after writing
the IIS diagnostics to a file), and an UNBOUNDED (or OTHER) status raises a
bare `Exception` — exactly the unpack-on-None / uncaught-exception
behaviour the specification says must not happen.  The notebook's own
recorded run crashes with `TypeError: cannot unpack non-iterable NoneType
object` at this very call site. -/
theorem C3_untyped_result_bug :
    solve_linear_program GNoArcs demEx "cost" oracleInf = PyResult.retNone
    ∧ solve_linear_program GNoArcs demEx "cost" oracleUnb
        = PyResult.raised ("Pas de solution optimale trouvée") :=
  ⟨rfl, rfl⟩

/-! ### Claim C4 -/

/-- Conservation constraints carry no capacity key. -/
theorem capEventKey_consConstr (G : Graph) (i j n : Node) :
    capEventKey (Event.addConstr (consConstr G i j n)) = none := by
  unfold consConstr
  split_ifs <;> rfl

/-- Conservation constraints carry no utilization key. -/
theorem utilEventKey_consConstr (G : Graph) (i j n : Node) :
    utilEventKey (Event.addConstr (consConstr G i j n)) = none := by
  unfold consConstr
  split_ifs <;> rfl

/-- The variable, conservation and capacity phases create no utilization
variable and no utilization constraint. -/
theorem modelPhase_no_util (G : Graph) (dem : Demands) :
    ∀ e ∈ flowVarEvents G dem ++ consEvents G dem ++ capEvents G dem,
      isUtilVarAdd e = false ∧ utilEventKey e = none := by
  intro e he
  simp only [List.mem_append] at he
  rcases he with (he | he) | he
  · obtain ⟨d, _, b, _, rfl⟩ := mem_flowVarEvents he
    exact ⟨rfl, rfl⟩
  · obtain ⟨d, _, n, _, rfl⟩ := mem_consEvents he
    exact ⟨rfl, utilEventKey_consConstr G d.1.1 d.1.2 n⟩
  · obtain ⟨b, _, rfl⟩ := mem_capEvents he
    exact ⟨rfl, rfl⟩

/-- Claim C4 counterexample: `"max_utilization"` — the selector name used by
the specification — is **not** recognized by the code (which spells it
`"max_utlilization"`): the build raises
`ValueError("Fonction objectif non reconnue")` and no utilization variable
is ever created. -/
theorem C4_selector_cex :
    buildModel Gex demEx2 "max_utilization"
        = Except.error ("Fonction objectif non reconnue")
      ∧ (buildEvents Gex demEx2 "max_utilization").countP isUtilVarAdd = 0 :=
  ⟨rfl, rfl⟩

/-- Claim C4, amended: with the selector spelled `"max_utlilization"` as in
the source (and non-zero capacities), the build adds exactly one auxiliary
utilization variable, with lower bound `0` and no upper bound
(`GRB.INFINITY`); for every arc exactly one constraint
`U ≥ (Σ_d volume_d · x[d,u,v]) / capacity(u,v)` (its left-hand side is the
bare variable `U`, its right-hand side carries coefficient
`volume / capacity` on each demand's flow variable on that arc); and the
objective is set, last, to minimize `U`. -/
theorem C4_max_utilization_amended (G : Graph) (dem : Demands)
    (hdem : (dem.map (fun d => d.1)).Nodup)
    (harc : (G.arcs.map (fun b => (b.tail, b.head))).Nodup)
    (hcap : ∀ a ∈ G.arcs, a.capacity ≠ 0) :
    ((buildEvents G dem "max_utlilization").countP isUtilVarAdd = 1
      ∧ (∀ e ∈ buildEvents G dem "max_utlilization", isUtilVarAdd e = true →
          e = Event.addVar Var.util 0 none))
    ∧ (∀ a ∈ G.arcs,
        (buildEvents G dem "max_utlilization").countP (isUtilConstrFor a.tail a.head) = 1
        ∧ (∀ e ∈ buildEvents G dem "max_utlilization",
            isUtilConstrFor a.tail a.head e = true →
              e = Event.addConstr (utilConstr dem a))
        ∧ (utilConstr dem a).lhs = ⟨[((1 : ℚ), Var.util)], 0⟩
        ∧ (utilConstr dem a).rel = Rel.ge
        ∧ (∀ i j : Node, ∀ vol : ℚ, ((i, j), vol) ∈ dem →
            coeff (utilConstr dem a).rhs (Var.flow i j a.tail a.head) = vol / a.capacity)
        ∧ coeff (utilConstr dem a).rhs Var.util = 0)
    ∧ (buildEvents G dem "max_utlilization").getLast?
        = some (Event.setObjective ⟨[((1 : ℚ), Var.util)], 0⟩ Dir.minimize) := by
  have htr : buildEvents G dem "max_utlilization"
      = (flowVarEvents G dem ++ consEvents G dem ++ capEvents G dem)
          ++ (Event.addVar Var.util 0 none ::
              (G.arcs.map (fun b => Event.addConstr (utilConstr dem b))
                ++ [Event.setObjective ⟨[((1 : ℚ), Var.util)], 0⟩ Dir.minimize])) := by
    rw [buildEvents, objEvents_max, utilLoopEvents_eq_of_caps dem G.arcs hcap]
  refine ⟨⟨?_, ?_⟩, ?_, ?_⟩
  · have h0 : (flowVarEvents G dem ++ consEvents G dem ++ capEvents G dem).countP
        isUtilVarAdd = 0 := by
      rw [List.countP_eq_zero]
      intro e he
      rw [(modelPhase_no_util G dem e he).1]
      exact Bool.false_ne_true
    have h1 : (G.arcs.map (fun b => Event.addConstr (utilConstr dem b))).countP
        isUtilVarAdd = 0 := by
      rw [List.countP_map, List.countP_eq_zero]
      intro b _
      exact fun hc => Bool.false_ne_true hc
    rw [htr, List.countP_append isUtilVarAdd
        (flowVarEvents G dem ++ consEvents G dem ++ capEvents G dem), h0,
      List.countP_cons, List.countP_append, h1]
    rfl
  · intro e he hc
    rw [htr] at he
    simp only [List.mem_append, List.mem_cons, List.mem_map, List.mem_singleton] at he
    rcases he with he | rfl | ⟨b, _, rfl⟩ | rfl | hff
    · rw [(modelPhase_no_util G dem e (by simp only [List.mem_append]; tauto)).1] at hc
      cases hc
    · rfl
    · cases hc
    · cases hc
    · cases hff
  · intro a ha
    refine ⟨?_, ?_, rfl, rfl, ?_, ?_⟩
    · have h0 : (flowVarEvents G dem ++ consEvents G dem ++ capEvents G dem).countP
          (isUtilConstrFor a.tail a.head) = 0 := by
        rw [List.countP_eq_zero]
        intro e he
        simp [isUtilConstrFor, (modelPhase_no_util G dem e he).2]
      have h1 : (G.arcs.map (fun b => Event.addConstr (utilConstr dem b))).countP
          (isUtilConstrFor a.tail a.head) = 1 := by
        rw [List.countP_map]
        have hpt : ∀ b ∈ G.arcs,
            ((isUtilConstrFor a.tail a.head) ∘
              (fun b => Event.addConstr (utilConstr dem b))) b = true
            ↔ (decide ((b.tail, b.head) = (a.tail, a.head))) = true := by
          intro b _
          simp [isUtilConstrFor, utilEventKey, utilConstr]
        rw [List.countP_congr hpt]
        exact countP_key_unique G.arcs (fun b => (b.tail, b.head)) (a.tail, a.head)
          harc a ha rfl
      rw [htr, List.countP_append (isUtilConstrFor a.tail a.head)
          (flowVarEvents G dem ++ consEvents G dem ++ capEvents G dem), h0,
        List.countP_cons, List.countP_append, h1]
      rfl
    · intro e he hc
      rw [htr] at he
      simp only [List.mem_append, List.mem_cons, List.mem_map, List.mem_singleton] at he
      rcases he with he | rfl | ⟨b, hb, rfl⟩ | rfl | hff
      · rw [isUtilConstrFor, (modelPhase_no_util G dem e (by simp only [List.mem_append]; tauto)).2] at hc
        cases hc
      · cases hc
      · simp only [isUtilConstrFor, utilEventKey, utilConstr, decide_eq_true_eq,
          Option.some.injEq] at hc
        obtain ⟨h1, h2⟩ : b.tail = a.tail ∧ b.head = a.head := by
          simpa [Prod.ext_iff] using hc
        have hba : b = a :=
          List.inj_on_of_nodup_map harc hb ha (by rw [Prod.ext_iff]; exact ⟨h1, h2⟩)
        rw [hba]
      · cases hc
      · cases hff
    · intro i j vol hd
      exact coeffT_demand_map (fun d => d.2 / a.capacity) a.tail a.head hdem hd
    · refine coeffT_demand_map_other (fun d => d.2 / a.capacity) a.tail a.head ?_
      intro i j hc
      cases hc
  · rw [htr,
      show Event.addVar Var.util 0 none ::
          (G.arcs.map (fun b => Event.addConstr (utilConstr dem b))
            ++ [Event.setObjective ⟨[((1 : ℚ), Var.util)], 0⟩ Dir.minimize])
        = (Event.addVar Var.util 0 none ::
            G.arcs.map (fun b => Event.addConstr (utilConstr dem b)))
            ++ [Event.setObjective ⟨[((1 : ℚ), Var.util)], 0⟩ Dir.minimize] from rfl,
      ← List.append_assoc, List.getLast?_concat]

/-- Witness for the amended C4 at `Gex` with both demands. -/
theorem C4_max_utilization_amended_witness :
    ((demEx2.map (fun d => d.1)).Nodup
      ∧ (Gex.arcs.map (fun b => (b.tail, b.head))).Nodup
      ∧ (∀ a ∈ Gex.arcs, a.capacity ≠ 0))
    ∧ (buildEvents Gex demEx2 "max_utlilization").countP isUtilVarAdd = 1 := by
  have hcap : ∀ a ∈ Gex.arcs, a.capacity ≠ 0 := by
    intro a ha
    have haeq : a = arcEx := by
      simpa [Gex, arcEx] using ha
    rw [haeq]
    norm_num [arcEx]
  exact ⟨⟨by decide, by decide, hcap⟩,
    (C4_max_utilization_amended Gex demEx2 (by decide) (by decide) hcap).1.1⟩

/-! ### Claim C2 -/

/-- A constraint mentions a variable when the variable's aggregate
coefficient on either side is non-zero. -/
def mentionsVar (c : Constr) (w : Var) : Prop :=
  coeff c.lhs w ≠ 0 ∨ coeff c.rhs w ≠ 0

/-- A constraint couples two distinct demands when it mentions flow
variables of two different (origin, destination) keys. -/
def couplesDemands (c : Constr) : Prop :=
  ∃ i j u v i' j' u' v' : Node,
    ((i : Node), (j : Node)) ≠ (i', j')
      ∧ mentionsVar c (Var.flow i j u v)
      ∧ mentionsVar c (Var.flow i' j' u' v')

/-- A conservation constraint only mentions flow variables of its own
demand. -/
theorem mentionsVar_consConstr {G : Graph} {i j n : Node} {i' j' u' v' : Node}
    (h : mentionsVar (consConstr G i j n) (Var.flow i' j' u' v')) :
    ((i' : Node), (j' : Node)) = (i, j) := by
  by_contra hne
  rcases h with h | h
  · exact h (coeff_consConstr_other G i j n u' v' hne)
  · rw [consConstr_rhs, coeff_ofConst] at h
    exact h rfl

/-- Claim C2 counterexample: under the (source-spelled) max-utilization
objective, the built model contains the per-arc utilization constraint,
which mentions the flow variables of the two distinct demands `(0, 1)` and
`(1, 0)` with non-zero coefficient `1/2` each, and is tagged
`utilisation_0_1` — not a capacity constraint.  The capacity constraints are
therefore **not** the only constraint family coupling distinct demands. -/
theorem C2_coupling_cex :
    Event.addConstr (utilConstr demEx2 arcEx) ∈ buildEvents Gex demEx2 "max_utlilization"
      ∧ coeff (utilConstr demEx2 arcEx).rhs (Var.flow 0 1 0 1) = 1 / 2
      ∧ coeff (utilConstr demEx2 arcEx).rhs (Var.flow 1 0 0 1) = 1 / 2
      ∧ ((1 : ℚ) / 2 ≠ 0)
      ∧ (((0 : Node), (1 : Node)) ≠ ((1 : Node), (0 : Node)))
      ∧ (utilConstr demEx2 arcEx).tag = ConstrTag.utilization 0 1 := by
  have hcap : ∀ a ∈ Gex.arcs, a.capacity ≠ 0 := by
    intro a ha
    have haeq : a = arcEx := by
      simpa [Gex, arcEx] using ha
    rw [haeq]
    norm_num [arcEx]
  refine ⟨?_, ?_, ?_, by norm_num, by decide, rfl⟩
  · rw [buildEvents, objEvents_max, utilLoopEvents_eq_of_caps demEx2 Gex.arcs hcap]
    refine List.mem_append_right _ ?_
    refine List.mem_cons_of_mem _ ?_
    refine List.mem_append_left _ ?_
    exact List.mem_singleton.mpr rfl
  · show coeffT (demEx2.map
        (fun d => (d.2 / arcEx.capacity, Var.flow d.1.1 d.1.2 arcEx.tail arcEx.head)))
        (Var.flow 0 1 0 1) = 1 / 2
    simp [demEx2, arcEx, coeffT_cons, coeffT_nil]
  · show coeffT (demEx2.map
        (fun d => (d.2 / arcEx.capacity, Var.flow d.1.1 d.1.2 arcEx.tail arcEx.head)))
        (Var.flow 1 0 0 1) = 1 / 2
    simp [demEx2, arcEx, coeffT_cons, coeffT_nil]

/-- Claim C2, amended: for every arc the model contains exactly one capacity
constraint `Σ_d volume_d · x[d,u,v] ≤ capacity(u,v)`; the conservation
constraints never couple distinct demands; but the capacity family is the
only coupling family **only up to the objective**: every constraint of the
model that couples distinct demands is either a capacity constraint or (under
the max-utilization objective) a per-arc utilization constraint. -/
theorem C2_capacity_amended (G : Graph) (dem : Demands) (objective : String)
    (hdem : (dem.map (fun d => d.1)).Nodup)
    (harc : (G.arcs.map (fun b => (b.tail, b.head))).Nodup) :
    (∀ a ∈ G.arcs,
        (buildEvents G dem objective).countP (isCapFor a.tail a.head) = 1
        ∧ (∀ e ∈ buildEvents G dem objective, isCapFor a.tail a.head e = true →
            e = Event.addConstr (capConstr dem a))
        ∧ (capConstr dem a).rel = Rel.le
        ∧ (capConstr dem a).rhs = AffExpr.ofConst a.capacity
        ∧ (∀ i j : Node, ∀ vol : ℚ, ((i, j), vol) ∈ dem →
            coeff (capConstr dem a).lhs (Var.flow i j a.tail a.head) = vol)
        ∧ (∀ i j u v : Node, (u, v) ≠ (a.tail, a.head) →
            coeff (capConstr dem a).lhs (Var.flow i j u v) = 0)
        ∧ coeff (capConstr dem a).lhs Var.util = 0)
    ∧ (∀ e ∈ buildEvents G dem objective, ∀ c : Constr, e = Event.addConstr c →
        couplesDemands c →
          (∃ u v : Node, c.tag = ConstrTag.capacity u v)
            ∨ (∃ u v : Node, c.tag = ConstrTag.utilization u v)) := by
  constructor
  · intro a ha
    refine ⟨countP_buildEvents_cap harc ha, ?_, rfl, rfl, ?_, ?_, ?_⟩
    · intro e he hc
      obtain ⟨b, hb, h1, h2, rfl⟩ := capEvent_value he hc
      have hba : b = a :=
        List.inj_on_of_nodup_map harc hb ha (by rw [Prod.ext_iff]; exact ⟨h1, h2⟩)
      rw [hba]
    · intro i j vol hd
      exact coeffT_demand_map (fun d => d.2) a.tail a.head hdem hd
    · intro i j u v huv
      refine coeffT_demand_map_other (fun d => d.2) a.tail a.head ?_
      intro i' j' hc
      obtain ⟨_, _, h3, h4⟩ : i = i' ∧ j = j' ∧ u = a.tail ∧ v = a.head := by
        simpa [Var.flow.injEq] using hc
      exact huv (by rw [Prod.ext_iff]; exact ⟨h3, h4⟩)
    · refine coeffT_demand_map_other (fun d => d.2) a.tail a.head ?_
      intro i' j' hc
      cases hc
  · intro e he c hform hcpl
    subst hform
    rw [buildEvents] at he
    simp only [List.mem_append] at he
    rcases he with ((he | he) | he) | he
    · obtain ⟨d, _, b, _, heq⟩ := mem_flowVarEvents he
      cases heq
    · obtain ⟨d, _, n, _, heq⟩ := mem_consEvents he
      have hc : c = consConstr G d.1.1 d.1.2 n := by
        injection heq
      subst hc
      obtain ⟨i, j, u, v, i', j', u', v', hne, hm1, hm2⟩ := hcpl
      rw [mentionsVar_consConstr hm1, mentionsVar_consConstr hm2] at hne
      exact absurd rfl hne
    · obtain ⟨b, _, heq⟩ := mem_capEvents he
      have hc : c = capConstr dem b := by
        injection heq
      subst hc
      exact Or.inl ⟨b.tail, b.head, rfl⟩
    · rcases mem_objEvents he with heq | ⟨ex, dir, heq⟩ | ⟨b, _, heq⟩ | ⟨msg, heq⟩
      · cases heq
      · cases heq
      · have hc : c = utilConstr dem b := by
          injection heq
        subst hc
        exact Or.inr ⟨b.tail, b.head, rfl⟩
      · cases heq

/-- Witness for the amended C2 at `Gex`, `demEx`, objective `"cost"`. -/
theorem C2_capacity_amended_witness :
    ((demEx.map (fun d => d.1)).Nodup
      ∧ (Gex.arcs.map (fun b => (b.tail, b.head))).Nodup)
    ∧ (buildEvents Gex demEx "cost").countP (isCapFor arcEx.tail arcEx.head) = 1 :=
  ⟨⟨by decide, by decide⟩,
    (C2_capacity_amended Gex demEx "cost" (by decide) (by decide)).1 arcEx (by decide) |>.1⟩

/-! ### Claim C7 -/

/-- Claim C7 counterexample: on the graph `0 → 1` with the single demand
`(0, 1)`, summing the left-hand sides of that demand's two conservation
constraints over all nodes gives the expression `2·x[0,1,0,1]` — the
coefficient of the flow variable is `2`, not `0`, because the source row is
written `outflow − inflow` while every other row is `inflow − outflow`. -/
theorem C7_conservation_sum_cex :
    (Gex.nodes.map (fun n => coeff (consConstr Gex 0 1 n).lhs (Var.flow 0 1 0 1))).sum
        = 2
      ∧ (2 : ℚ) ≠ 0 := by
  constructor
  · simp [Gex, consConstr, coeff, coeffT, inExpr, outExpr, AffExpr.sub, AffExpr.ofConst,
      List.filter]
    norm_num
  · norm_num

/-- Claim C7, amended: for every graph whose arcs join graph nodes and every
demand `(i, j)`, the node-wise sum of the conservation left-hand sides is
not identically zero but exactly twice the origin row
`(outflow − inflow at i)`, coefficient by coefficient; it vanishes only on
variables of arcs not incident to the origin. -/
theorem C7_conservation_sum_amended (G : Graph) (i j : Node)
    (hnodes : G.nodes.Nodup)
    (hends : ∀ a ∈ G.arcs, a.tail ∈ G.nodes ∧ a.head ∈ G.nodes) :
    ∀ w : Var,
      (G.nodes.map (fun n => coeff (consConstr G i j n).lhs w)).sum
        = 2 * coeff (consConstr G i j i).lhs w := by
  intro w
  cases w with
  | util =>
    have hpt : ∀ n ∈ G.nodes, coeff (consConstr G i j n).lhs Var.util = (0 : ℚ) :=
      fun n _ => coeff_consConstr_util G i j n
    rw [List.map_congr_left hpt, coeff_consConstr_util G i j i]
    simp
  | flow i' j' u' v' =>
    by_cases hk : ((i' : Node), (j' : Node)) = (i, j)
    · obtain ⟨hi, hj⟩ : i' = i ∧ j' = j := by simpa [Prod.ext_iff] using hk
      rw [hi, hj]
      have hpt : ∀ n ∈ G.nodes,
          coeff (consConstr G i j n).lhs (Var.flow i j u' v')
            = 2 * (if n = i
                then coeff (outExpr G i j i) (Var.flow i j u' v')
                      - coeff (inExpr G i j i) (Var.flow i j u' v')
                else 0)
              + (coeff (inExpr G i j n) (Var.flow i j u' v')
                  - coeff (outExpr G i j n) (Var.flow i j u' v')) := by
        intro n _
        rw [coeff_consConstr_lhs_gen]
        by_cases h : n = i
        · subst h
          simp only [eq_self_iff_true, if_true]
          ring
        · rw [if_neg h, if_neg h]
          ring
      rw [List.map_congr_left hpt]
      rw [sum_map_add G.nodes
        (fun n => 2 * (if n = i
            then coeff (outExpr G i j i) (Var.flow i j u' v')
                  - coeff (inExpr G i j i) (Var.flow i j u' v')
            else 0))
        (fun n => coeff (inExpr G i j n) (Var.flow i j u' v')
            - coeff (outExpr G i j n) (Var.flow i j u' v'))]
      rw [List.sum_map_mul_left G.nodes
        (fun n => if n = i
            then coeff (outExpr G i j i) (Var.flow i j u' v')
                  - coeff (inExpr G i j i) (Var.flow i j u' v')
            else 0) 2]
      rw [sum_map_ite_eq_const G.nodes i
        (coeff (outExpr G i j i) (Var.flow i j u' v')
          - coeff (inExpr G i j i) (Var.flow i j u' v')) hnodes]
      rw [sum_map_sub G.nodes
        (fun n => coeff (inExpr G i j n) (Var.flow i j u' v'))
        (fun n => coeff (outExpr G i j n) (Var.flow i j u' v'))]
      rw [sum_nodes_coeff_in G i j u' v' hnodes hends,
        sum_nodes_coeff_out G i j u' v' hnodes hends]
      rw [coeff_consConstr_lhs_gen G i j i u' v', if_pos rfl]
      by_cases hmem : i ∈ G.nodes
      · rw [if_pos hmem]
        ring
      · rw [if_neg hmem,
          coeff_outExpr_zero_of_not_node G i j i u' v' hends hmem,
          coeff_inExpr_zero_of_not_node G i j i u' v' hends hmem]
        ring
    · have hpt : ∀ n ∈ G.nodes,
          coeff (consConstr G i j n).lhs (Var.flow i' j' u' v') = (0 : ℚ) :=
        fun n _ => coeff_consConstr_other G i j n u' v' hk
      rw [List.map_congr_left hpt, coeff_consConstr_other G i j i u' v' hk]
      simp

/-- Witness for the amended C7 at `Gex`, demand `(0, 1)`, variable
`x[0,1,0,1]`. -/
theorem C7_conservation_sum_amended_witness :
    (Gex.nodes.Nodup ∧ (∀ a ∈ Gex.arcs, a.tail ∈ Gex.nodes ∧ a.head ∈ Gex.nodes))
      ∧ (Gex.nodes.map (fun n => coeff (consConstr Gex 0 1 n).lhs (Var.flow 0 1 0 1))).sum
          = 2 * coeff (consConstr Gex 0 1 0).lhs (Var.flow 0 1 0 1) :=
  ⟨⟨by decide, by decide⟩,
    C7_conservation_sum_amended Gex 0 1 (by decide) (by decide) (Var.flow 0 1 0 1)⟩

/-! ### Claim C8 -/

/-- Claim C8 counterexample: there is **no** positive threshold `τ` such
that the extracted solution keeps exactly the keys with value above `τ`.
For any `τ > 0` the code's filter `var.x > 0` keeps a variable of value
`τ / 2`, which any positive threshold would suppress: the code compares
against exactly zero. -/
theorem C8_threshold_cex :
    ¬ ∃ τ : ℚ, 0 < τ ∧ ∀ (keys : List FlowKey) (value : FlowKey → ℚ),
        extractSolution keys value
          = (keys.filter (fun k => decide (τ < value k))).map (fun k => (k, value k)) := by
  rintro ⟨τ, hτ, hall⟩
  have h := hall [(0, 1, 0, 1)] (fun _ => τ / 2)
  have h1 : (0 : ℚ) < τ / 2 := by positivity
  have h2 : ¬ (τ < τ / 2) := by linarith
  rw [extractSolution] at h
  simp [h1, h2] at h

/-- Claim C8, amended: on OPTIMAL status the returned solution is the pair
of the extracted sparse solution and the scalar objective value, and the
extraction keeps exactly the keys whose value is **strictly greater than
exactly zero** (`var.x > 0`, no epsilon threshold), each mapped to its own
fraction. -/
theorem C8_extraction_amended (keys : List FlowKey) (value : FlowKey → ℚ)
    (objVal : ℚ) :
    interpretResult keys value objVal Status.optimal
        = PyResult.retSolution (extractSolution keys value) objVal
    ∧ (∀ k : FlowKey,
        ((k, value k) ∈ extractSolution keys value ↔ k ∈ keys ∧ 0 < value k))
    ∧ (∀ p ∈ extractSolution keys value, p.2 = value p.1) := by
  refine ⟨rfl, ?_, ?_⟩
  · intro k
    constructor
    · intro hk
      simp only [extractSolution, List.mem_map, List.mem_filter,
        decide_eq_true_eq] at hk
      obtain ⟨k', ⟨hk1, hk2⟩, heq⟩ := hk
      obtain ⟨he1, _⟩ : k' = k ∧ value k' = value k := by
        simpa [Prod.ext_iff] using heq
      exact ⟨he1 ▸ hk1, he1 ▸ hk2⟩
    · intro ⟨hk, hv⟩
      simp only [extractSolution, List.mem_map, List.mem_filter, decide_eq_true_eq]
      exact ⟨k, ⟨hk, hv⟩, rfl⟩
  · intro p hp
    simp only [extractSolution, List.mem_map, List.mem_filter] at hp
    obtain ⟨k', _, heq⟩ := hp
    rw [← heq]

/-! ### Claim C9 -/

/-- Claim C9: model construction does not mutate its inputs.  The build is
threaded through a program state carrying the graph and the demand mapping;
replaying every model-building operation of `solve_linear_program` leaves
the node list, the arc list (hence every arc's capacity and cost), and the
demand mapping's keys and volumes exactly as they were. -/
theorem C9_inputs_not_mutated (G : Graph) (dem : Demands) (objective : String) :
    (buildModelSt G dem objective).1.G.nodes = G.nodes
    ∧ (buildModelSt G dem objective).1.G.arcs = G.arcs
    ∧ (buildModelSt G dem objective).1.G.arcs.map (fun a => a.capacity)
        = G.arcs.map (fun a => a.capacity)
    ∧ (buildModelSt G dem objective).1.G.arcs.map (fun a => a.cost)
        = G.arcs.map (fun a => a.cost)
    ∧ (buildModelSt G dem objective).1.dem.map (fun d => d.1)
        = dem.map (fun d => d.1)
    ∧ (buildModelSt G dem objective).1.dem.map (fun d => d.2)
        = dem.map (fun d => d.2) := by
  have key : ∀ (evs : List Event) (st : ProgState),
      (replayProg evs st).1.G = st.G ∧ (replayProg evs st).1.dem = st.dem := by
    intro evs
    induction evs with
    | nil => intro st; exact ⟨rfl, rfl⟩
    | cons e rest ih =>
      intro st
      cases e with
      | raiseError msg => exact ⟨rfl, rfl⟩
      | addVar v lb ub => exact ih _
      | addConstr c => exact ih _
      | setObjective ex d => exact ih _
  have hG : (buildModelSt G dem objective).1.G = G :=
    (key (buildEvents G dem objective) ⟨G, dem, emptyModel⟩).1
  have hdem : (buildModelSt G dem objective).1.dem = dem :=
    (key (buildEvents G dem objective) ⟨G, dem, emptyModel⟩).2
  rw [hG, hdem]
  exact ⟨rfl, rfl, rfl, rfl, rfl, rfl⟩

/-! ### Claim C10 -/

/-- The arc rows written by `save_to_csv` parse without error, accumulating
one edge per row. -/
theorem readLoop_arc_rows (arcs : List Arc) (rest : List (List Cell)) :
    ∀ acc : ReadAcc,
      readLoop ((arcs.map (fun a =>
          [Cell.i a.tail, Cell.i a.head, Cell.q a.capacity, Cell.q a.cost])) ++ rest)
        "arcs" acc
      = readLoop rest "arcs"
          { acc with edges := acc.edges
              ++ arcs.map (fun a => (a.tail, a.head, a.capacity, a.cost)) } := by
  induction arcs with
  | nil =>
    intro acc
    simp
  | cons a as ih =>
    intro acc
    have hstep : readLoop (((a :: as).map (fun b =>
        [Cell.i b.tail, Cell.i b.head, Cell.q b.capacity, Cell.q b.cost])) ++ rest)
          "arcs" acc
        = readLoop ((as.map (fun b =>
            [Cell.i b.tail, Cell.i b.head, Cell.q b.capacity, Cell.q b.cost])) ++ rest)
            "arcs" { acc with edges := acc.edges
                ++ [(a.tail, a.head, a.capacity, a.cost)] } := rfl
    rw [hstep, ih]
    congr 1
    simp

/-- Claim C10: the round trip crashes, for **every** instance.  The row
`['entry', 'Target', 'Traffic Demand']` written by `save_to_csv` switches
`read_instance` to the traffic section but — unlike the `'Source'` and
`'Subset S'` header rows — is not skipped (the `continue` is missing), so
the loop immediately evaluates `int('entry')`, which raises `ValueError`.
No file written by `save_to_csv` can ever be read back. -/
theorem C10_roundtrip_bug (G : Graph) (S : List Int)
    (dem : List ((Int × Int) × Int)) :
    read_instance (save_to_csv G S dem)
      = Except.error ("ValueError: invalid literal for int(): entry") := by
  have h0 : read_instance (save_to_csv G S dem)
      = readLoop ((G.arcs.map (fun a =>
          [Cell.i a.tail, Cell.i a.head, Cell.q a.capacity, Cell.q a.cost]))
          ++ ([[]] ++ ([[Cell.s ("entry"), Cell.s ("Target"), Cell.s ("Traffic Demand")]]
            ++ (dem.map (fun d => [Cell.i d.1.1, Cell.i d.1.2, Cell.i d.2])
              ++ ([[]] ++ ([[Cell.s ("Subset S")]] ++ [S.map Cell.i]))))))
        "arcs" ⟨[], [], []⟩ := by
    rw [read_instance, save_to_csv]
    simp only [List.append_assoc]
    rfl
  rw [h0, readLoop_arc_rows]
  rfl

/-- Witness for C1 at the concrete instance `Gex`, `demEx`, objective
`"cost"`: the hypotheses hold and the variable and constraint counts are 1
for the pair (demand `(0, 1)`, arc `0 → 1`) and node `0`. -/
theorem C1_model_structure_witness :
    (recognizedObjective "cost"
      ∧ (demEx.map (fun d => d.1)).Nodup
      ∧ (Gex.arcs.map (fun b => (b.tail, b.head))).Nodup
      ∧ Gex.nodes.Nodup)
    ∧ (buildEvents Gex demEx "cost").countP (isFlowVarAdd 0 1 arcEx.tail arcEx.head) = 1
    ∧ (buildEvents Gex demEx "cost").countP (isConsFor 0 1 0) = 1 := by
  have h := C1_model_structure Gex demEx "cost" (Or.inl rfl)
    (by decide) (by decide) (by decide)
  refine ⟨⟨Or.inl rfl, by decide, by decide, by decide⟩, ?_, ?_⟩
  · exact h.1 0 1 1 arcEx (by decide) (by decide)
  · exact (h.2.2 0 1 1 0 (by decide) (by decide) (by decide)).1

end Routage
